import Mathlib

/-!
# Verification of the `v1_15_2` protocol codec

A shallow embedding of the serialization framework and the bespoke message
bodies of `src/v1_15_2.rs` (Minecraft protocol 578 codec).  Byte strings are
`List Nat` with every byte below 256; serializers are pure functions to byte
lists (the sink-based `Serializer` in the source only appends, in declaration
order); deserializers are functions `List Nat → Except DeserializeErr (α × List Nat)`
returning the decoded value and the remaining suffix, mirroring
`DeserializeResult` in the source.

Primitive codecs (`VarInt`, `String`, fixed-width integers, `UUID4`, `bool`,
`Option`, counted arrays) live in `types.rs`/`protocol.rs` of the crate, which
are not part of the sources under review; those definitions are modelled from
the spec and are marked as such in their doc comments.  Everything else is
translated directly from `v1_15_2.rs`.
-/

namespace MCProto

/-- Deserialization errors, mirroring `DeserializeErr` in the source.
`panicked` models a Rust `panic!`, which is a distinct observable outcome
(process abort), never a returned error value. -/
inductive DeserializeErr where
  | eof
  | varIntTooLong
  | cannotUnderstandValue (msg : String)
  | panicked (msg : String)
  deriving DecidableEq, Repr

deriving instance DecidableEq for Except

/-- `DeserializeResult`: the decoded value together with the remaining bytes. -/
abbrev DeserResult (α : Type) := Except DeserializeErr (α × List Nat)

/-- The unsigned 32-bit pattern of a signed 32-bit integer. -/
def toUnsigned32 (v : Int) : Nat := (v % (2 ^ 32 : Int)).toNat

/-- Reinterpret an unsigned 32-bit pattern as a signed 32-bit integer. -/
def fromUnsigned32 (u : Nat) : Int :=
  if u < 2 ^ 31 then (u : Int) else (u : Int) - 2 ^ 32

/-- Rust `as usize` on an `i32` value (64-bit target): sign-extend, then
reinterpret as unsigned. -/
def usizeOfI32 (v : Int) : Nat := (v % (2 ^ 64 : Int)).toNat

/-- Modelled from the spec: `VarInt` encoding (`types.rs`, not under review):
"emit 7 bits at a time, set continuation bit on all but the last byte, using
the unsigned bit-pattern of the value".  The loop is bounded by 5 iterations,
the maximum for a 32-bit pattern (the bound is never hit: the argument is
always below `2^32`, structural fuel only makes the recursion evident). -/
def varIntWriteLoop : Nat → Nat → List Nat
  | 0, _ => []
  | fuel + 1, u =>
    if u < 0x80 then [u] else (u % 0x80 + 0x80) :: varIntWriteLoop fuel (u / 0x80)

/-- The minimal VarInt byte sequence for an unsigned 32-bit pattern. -/
def varIntWriteNat (u : Nat) : List Nat := varIntWriteLoop 5 u

/-- Modelled from the spec: `VarInt::mc_serialize` (`types.rs`). -/
def VarInt.mc_serialize (v : Int) : List Nat := varIntWriteNat (toUnsigned32 v)

/-- Modelled from the spec: the `VarInt` decode loop (`types.rs`): "reads
bytes until continuation bit clear or max byte count exceeded (5 for 32-bit);
exceeding max length is a decode error".  7 data bits per byte, little-endian
group order, accumulated then truncated to the 32-bit width. -/
def varIntReadLoop : List Nat → Nat → Nat → Nat → Except DeserializeErr (Nat × List Nat)
  | data, acc, bitPlace, i =>
    if i = 5 then .error .varIntTooLong
    else
      match data with
      | [] => .error .eof
      | b :: rest =>
        if b % 0x100 ≥ 0x80 then
          varIntReadLoop rest (acc + b % 0x80 * 2 ^ bitPlace) (bitPlace + 7) (i + 1)
        else
          .ok (acc + b % 0x80 * 2 ^ bitPlace, rest)

/-- Modelled from the spec: `VarInt::mc_deserialize` (`types.rs`). -/
def VarInt.mc_deserialize (data : List Nat) : DeserResult Int :=
  match varIntReadLoop data 0 0 0 with
  | .ok (acc, rest) => .ok (fromUnsigned32 (acc % 2 ^ 32), rest)
  | .error e => .error e

/-- `fn varint_to_usize(v: VarInt) -> usize` from the source. -/
def varint_to_usize (v : Int) : Nat := usizeOfI32 v

/-- `fn varint_from_usize(u: usize) -> VarInt` from the source
(`u as i32` wrapping conversion). -/
def varint_from_usize (u : Nat) : Int := fromUnsigned32 (u % 2 ^ 32)

/-- A byte sequence that is a legal (possibly non-minimal) VarInt encoding:
between 1 and 5 bytes, every byte below 256, continuation bit set on all but
the last byte and clear on the last. -/
def validVarIntBytes : List Nat → Bool
  | [] => false
  | [b] => decide (b < 0x80)
  | b :: rest => decide (0x80 ≤ b ∧ b < 0x100) && validVarIntBytes rest

/-- The integer denoted by a legal VarInt byte sequence (7 data bits per
byte, little-endian group order). -/
def varIntBytesValue : List Nat → Nat
  | [] => 0
  | b :: rest => b % 0x80 + 0x80 * varIntBytesValue rest

/-- `bs` is a complete encoding of VarInt `v`: the decoder consumes exactly
`bs` and yields `v`, whatever follows. -/
def VarIntEncodes (bs : List Nat) (v : Int) : Prop :=
  ∀ rest, VarInt.mc_deserialize (bs ++ rest) = .ok (v, rest)

-- ### Helper lemmas about the VarInt codec

theorem varIntWriteLoop_length_le (fuel : Nat) :
    ∀ k u, u < 2 ^ (7 * k) → u ≠ 0 → (varIntWriteLoop fuel u).length ≤ k := by
  induction fuel with
  | zero => intro k u _ _; simp [varIntWriteLoop]
  | succ fuel ih =>
    intro k u hu hne
    rw [varIntWriteLoop]
    split
    · have hk : k ≠ 0 := by
        intro h; subst h; norm_num at hu; omega
      simp; omega
    · simp only [List.length_cons]
      have hk : k ≠ 0 := by
        intro h; subst h; norm_num at hu; omega
      obtain ⟨k', rfl⟩ : ∃ k', k = k' + 1 := ⟨k - 1, by omega⟩
      have hz : u / 0x80 ≠ 0 := by omega
      have hlt : u / 0x80 < 2 ^ (7 * k') := by
        have h2 : u < 2 ^ (7 * k') * 0x80 := by
          calc u < 2 ^ (7 * (k' + 1)) := hu
          _ = 2 ^ (7 * k') * 0x80 := by ring
        omega
      have := ih k' (u / 0x80) hlt hz
      omega

theorem varIntWriteNat_length_le (k : Nat) (u : Nat) (hu : u < 2 ^ (7 * k))
    (hne : u ≠ 0) : (varIntWriteNat u).length ≤ k :=
  varIntWriteLoop_length_le 5 k u hu hne

theorem varIntWriteLoop_length_le_fuel (fuel : Nat) :
    ∀ u, (varIntWriteLoop fuel u).length ≤ fuel := by
  induction fuel with
  | zero => intro u; simp [varIntWriteLoop]
  | succ fuel ih =>
    intro u
    rw [varIntWriteLoop]
    split
    · simp
    · simp only [List.length_cons]
      have := ih (u / 0x80)
      omega

theorem varIntWriteLoop_bytes_lt (fuel : Nat) :
    ∀ u b, b ∈ varIntWriteLoop fuel u → b < 0x100 := by
  induction fuel with
  | zero => intro u b hb; simp [varIntWriteLoop] at hb
  | succ fuel ih =>
    intro u b hb
    rw [varIntWriteLoop] at hb
    split at hb
    · simp only [List.mem_cons, List.not_mem_nil, or_false] at hb
      omega
    · simp only [List.mem_cons] at hb
      rcases hb with rfl | hb
      · omega
      · exact ih _ b hb

theorem varIntReadLoop_write (fuel : Nat) :
    ∀ u acc bitPlace i rest, u < 2 ^ (7 * fuel) → 1 ≤ fuel →
      i + (varIntWriteLoop fuel u).length ≤ 5 →
      varIntReadLoop (varIntWriteLoop fuel u ++ rest) acc bitPlace i =
        .ok (acc + u * 2 ^ bitPlace, rest) := by
  induction fuel with
  | zero => intro u acc bitPlace i rest _ hf; omega
  | succ fuel ih =>
    intro u acc bitPlace i rest hu _ hlen
    rw [varIntWriteLoop] at hlen ⊢
    by_cases h : u < 0x80
    · rw [if_pos h] at hlen ⊢
      rw [varIntReadLoop.eq_def]
      have hi : i ≠ 5 := by simp at hlen; omega
      simp only [hi, if_false, List.cons_append, List.nil_append]
      have hmod : u % 0x100 = u := Nat.mod_eq_of_lt (by omega)
      rw [hmod]
      have hlt : ¬ (u ≥ 0x80) := by omega
      simp only [hlt, if_false]
      have hm2 : u % 0x80 = u := Nat.mod_eq_of_lt h
      rw [hm2]
    · rw [if_neg h] at hlen ⊢
      rw [varIntReadLoop.eq_def]
      have hi : i ≠ 5 := by simp at hlen; omega
      simp only [hi, if_false, List.cons_append]
      have hmod : (u % 0x80 + 0x80) % 0x100 = u % 0x80 + 0x80 := by omega
      rw [hmod]
      have hge : u % 0x80 + 0x80 ≥ 0x80 := by omega
      simp only [hge, if_true]
      have hfuel : 1 ≤ fuel := by
        by_contra hc
        have : fuel = 0 := by omega
        subst this
        norm_num at hu
        omega
      have hu' : u / 0x80 < 2 ^ (7 * fuel) := by
        have h2 : u < 2 ^ (7 * fuel) * 0x80 := by
          calc u < 2 ^ (7 * (fuel + 1)) := hu
          _ = 2 ^ (7 * fuel) * 0x80 := by ring
        omega
      have hlen' : (i + 1) + (varIntWriteLoop fuel (u / 0x80)).length ≤ 5 := by
        simp at hlen; omega
      rw [ih _ _ _ _ _ hu' hfuel hlen']
      have h1 : (u % 0x80 + 0x80) % 0x80 = u % 0x80 := by omega
      have h2 : u % 0x80 + 0x80 * (u / 0x80) = u := Nat.mod_add_div u 0x80
      rw [h1]
      congr 2
      rw [pow_add]
      calc acc + u % 0x80 * 2 ^ bitPlace + u / 0x80 * (2 ^ bitPlace * 2 ^ 7)
          = acc + (u % 0x80 + 0x80 * (u / 0x80)) * 2 ^ bitPlace := by ring
        _ = acc + u * 2 ^ bitPlace := by rw [h2]

theorem toUnsigned32_lt (v : Int) : toUnsigned32 v < 2 ^ 32 := by
  unfold toUnsigned32
  omega

theorem fromUnsigned32_toUnsigned32 (v : Int) (h1 : -(2 ^ 31) ≤ v) (h2 : v < 2 ^ 31) :
    fromUnsigned32 (toUnsigned32 v) = v := by
  unfold fromUnsigned32 toUnsigned32
  split <;> omega

theorem toUnsigned32_fromUnsigned32 (u : Nat) (h : u < 2 ^ 32) :
    toUnsigned32 (fromUnsigned32 u) = u := by
  unfold fromUnsigned32 toUnsigned32
  split <;> omega

theorem varint_roundtrip (v : Int) (h1 : -(2 ^ 31) ≤ v) (h2 : v < 2 ^ 31) (rest : List Nat) :
    VarInt.mc_deserialize (VarInt.mc_serialize v ++ rest) = .ok (v, rest) := by
  unfold VarInt.mc_serialize VarInt.mc_deserialize varIntWriteNat
  rw [varIntReadLoop_write 5 (toUnsigned32 v) 0 0 0 rest
      (by have := toUnsigned32_lt v; norm_num; omega) (by norm_num)
      (by simpa using varIntWriteLoop_length_le_fuel 5 (toUnsigned32 v))]
  simp only [pow_zero, mul_one, Nat.zero_add]
  rw [Nat.mod_eq_of_lt (toUnsigned32_lt v), fromUnsigned32_toUnsigned32 v h1 h2]

theorem varint_encodes_serialize (v : Int) (h1 : -(2 ^ 31) ≤ v) (h2 : v < 2 ^ 31) :
    VarIntEncodes (VarInt.mc_serialize v) v :=
  fun rest => varint_roundtrip v h1 h2 rest

theorem varIntBytesValue_lt (bs : List Nat) :
    varIntBytesValue bs < 2 ^ (7 * bs.length) := by
  induction bs with
  | nil => simp [varIntBytesValue]
  | cons b tl ih =>
    rw [varIntBytesValue]
    simp only [List.length_cons]
    have : 2 ^ (7 * (tl.length + 1)) = 2 ^ (7 * tl.length) * 0x80 := by ring
    rw [this]
    have hb : b % 0x80 < 0x80 := Nat.mod_lt _ (by omega)
    omega

theorem varIntReadLoop_valid (bs : List Nat) :
    ∀ acc bitPlace i rest, validVarIntBytes bs = true → i + bs.length ≤ 5 →
      varIntReadLoop (bs ++ rest) acc bitPlace i =
        .ok (acc + varIntBytesValue bs * 2 ^ bitPlace, rest) := by
  induction bs with
  | nil => intro acc bitPlace i rest hv; simp [validVarIntBytes] at hv
  | cons b tl ih =>
    intro acc bitPlace i rest hv hlen
    cases tl with
    | nil =>
      simp only [validVarIntBytes, decide_eq_true_eq] at hv
      rw [varIntReadLoop.eq_def]
      have hi : i ≠ 5 := by simp at hlen; omega
      simp only [hi, if_false, List.cons_append, List.nil_append]
      have hmod : b % 0x100 = b := Nat.mod_eq_of_lt (by omega)
      rw [hmod]
      have hlt : ¬ (b ≥ 0x80) := by omega
      simp only [hlt, if_false, varIntBytesValue]
      norm_num
    | cons c tl' =>
      simp only [validVarIntBytes, Bool.and_eq_true, decide_eq_true_eq] at hv
      obtain ⟨⟨hb1, hb2⟩, hv'⟩ := hv
      rw [varIntReadLoop.eq_def]
      have hi : i ≠ 5 := by simp at hlen; omega
      simp only [hi, if_false, List.cons_append]
      have hmod : b % 0x100 = b := Nat.mod_eq_of_lt hb2
      rw [hmod]
      have hge : b ≥ 0x80 := hb1
      simp only [hge, if_true]
      have hlen' : (i + 1) + (c :: tl').length ≤ 5 := by simp at hlen ⊢; omega
      rw [← List.cons_append, ih _ _ _ _ hv' hlen']
      congr 2
      conv_rhs => rw [varIntBytesValue]
      rw [pow_add]
      ring

theorem varint_deserialize_valid (bs : List Nat) (rest : List Nat)
    (hv : validVarIntBytes bs = true) (hlen : bs.length ≤ 5) :
    VarInt.mc_deserialize (bs ++ rest) =
      .ok (fromUnsigned32 (varIntBytesValue bs % 2 ^ 32), rest) := by
  unfold VarInt.mc_deserialize
  rw [varIntReadLoop_valid bs 0 0 0 rest hv (by omega)]
  simp

theorem validVarIntBytes_ne_nil (bs : List Nat) (hv : validVarIntBytes bs = true) :
    bs ≠ [] := by
  intro h; subst h; simp [validVarIntBytes] at hv

theorem varint_serialize_minimal (bs : List Nat) (v : Int)
    (hv : validVarIntBytes bs = true) (hlen : bs.length ≤ 5)
    (henc : VarIntEncodes bs v) :
    (VarInt.mc_serialize v).length ≤ bs.length := by
  have h1 := henc []
  have h2 := varint_deserialize_valid bs [] hv hlen
  rw [h1] at h2
  simp only [Except.ok.injEq, Prod.mk.injEq, and_true] at h2
  subst h2
  unfold VarInt.mc_serialize varIntWriteNat
  have hu : varIntBytesValue bs % 2 ^ 32 < 2 ^ 32 := by omega
  rw [toUnsigned32_fromUnsigned32 _ hu]
  have hpos : 1 ≤ bs.length := by
    have := validVarIntBytes_ne_nil bs hv
    cases bs with
    | nil => simp at this
    | cons a l => simp
  by_cases hz : varIntBytesValue bs % 2 ^ 32 = 0
  · rw [hz]
    simp [varIntWriteLoop]
    omega
  · apply varIntWriteLoop_length_le 5 bs.length _ _ hz
    rcases Nat.lt_or_ge bs.length 5 with hlt | hge
    · have hval := varIntBytesValue_lt bs
      have : varIntBytesValue bs % 2 ^ 32 ≤ varIntBytesValue bs := Nat.mod_le _ _
      omega
    · have hb5 : bs.length = 5 := by omega
      rw [hb5]
      have : varIntBytesValue bs % 2 ^ 32 < 2 ^ 32 := hu
      norm_num
      omega

/-- **C3**: VarInt serialization always produces the minimal-length encoding
(7 data bits per byte, continuation bit in the high bit, at most 5 bytes for
the 32-bit width); `-1` encodes to the five bytes `FF FF FF FF 0F`; VarInt
deserialization accepts any valid encoding, including non-minimal ones, and
returns the same integer.  Spec-modelled: the VarInt codec lives in
`types.rs`, outside the sources under review. -/
theorem c3_varint_minimal_encode_lenient_decode :
    (∀ v : Int, -(2 ^ 31) ≤ v → v < 2 ^ 31 → ∀ rest,
        VarInt.mc_deserialize (VarInt.mc_serialize v ++ rest) = .ok (v, rest))
    ∧ VarInt.mc_serialize (-1) = [0xFF, 0xFF, 0xFF, 0xFF, 0x0F]
    ∧ (∀ v : Int, (VarInt.mc_serialize v).length ≤ 5)
    ∧ (∀ bs rest, validVarIntBytes bs = true → bs.length ≤ 5 →
        VarInt.mc_deserialize (bs ++ rest) =
          .ok (fromUnsigned32 (varIntBytesValue bs % 2 ^ 32), rest))
    ∧ (∀ bs (v : Int), validVarIntBytes bs = true → bs.length ≤ 5 →
        VarIntEncodes bs v → (VarInt.mc_serialize v).length ≤ bs.length) := by
  refine ⟨varint_roundtrip, by decide, ?_, varint_deserialize_valid, varint_serialize_minimal⟩
  intro v
  exact varIntWriteLoop_length_le_fuel 5 (toUnsigned32 v)

/-- Witness for C3 at concrete inputs: the round-trip at `v = 25565`
(which encodes to `DD C7 01`), and the non-minimal two-byte encoding
`80 00` of `0`, which decodes to `0` yet is longer than the minimal
one-byte encoding. -/
theorem c3_witness :
    VarInt.mc_deserialize (VarInt.mc_serialize 25565 ++ []) = .ok (25565, [])
    ∧ VarInt.mc_deserialize ([0x80, 0x00] ++ [7]) =
        .ok (fromUnsigned32 (varIntBytesValue [0x80, 0x00] % 2 ^ 32), [7])
    ∧ (VarInt.mc_serialize 0).length ≤ [0x80, 0x00].length := by
  refine ⟨c3_varint_minimal_encode_lenient_decode.1 25565 (by norm_num) (by norm_num) [],
    c3_varint_minimal_encode_lenient_decode.2.2.2.1 [0x80, 0x00] [7] (by decide) (by decide),
    c3_varint_minimal_encode_lenient_decode.2.2.2.2 [0x80, 0x00] 0 (by decide) (by decide) ?_⟩
  intro rest
  rfl

-- ### Sequencing helper

/-- Sequence a deserialization step: on success continue with the value and
the remaining bytes, on error propagate (the `?` operator on
`DeserializeResult` in the source). -/
def dbind (x : DeserResult α) (f : α → List Nat → DeserResult β) : DeserResult β :=
  match x with
  | .error e => .error e
  | .ok (v, rest) => f v rest

theorem dbind_ok (v : α) (rest : List Nat) (f : α → List Nat → DeserResult β) :
    dbind (.ok (v, rest)) f = f v rest := rfl

theorem dbind_error (e : DeserializeErr) (f : α → List Nat → DeserResult β) :
    dbind (.error e) f = .error e := rfl

theorem dbind_eq_ok (x : DeserResult α) (f : α → List Nat → DeserResult β)
    (v : β) (rest : List Nat) (h : dbind x f = .ok (v, rest)) :
    ∃ w mid, x = .ok (w, mid) ∧ f w mid = .ok (v, rest) := by
  unfold dbind at h
  cases x with
  | error e => simp at h
  | ok p => exact ⟨p.1, p.2, rfl, h⟩

-- ### Fixed-width primitives (modelled from the spec, `types.rs`)

/-- Modelled from the spec: big-endian bytes of an unsigned value, exact
byte count (`types.rs` fixed-width integer/float encoding). -/
def beBytes : Nat → Nat → List Nat
  | 0, _ => []
  | w + 1, u => u / 2 ^ (8 * w) % 0x100 :: beBytes w u

/-- Modelled from the spec: read `w` big-endian bytes into an accumulator. -/
def readBE : Nat → Nat → List Nat → Except DeserializeErr (Nat × List Nat)
  | 0, acc, data => .ok (acc, data)
  | _ + 1, _, [] => .error .eof
  | w + 1, acc, b :: rest => readBE w (acc * 0x100 + b) rest

/-- Modelled from the spec: `u8::mc_serialize`. -/
def u8.mc_serialize (v : Nat) : List Nat := [v % 0x100]

/-- Modelled from the spec: `u8::mc_deserialize` (one byte or EOF). -/
def u8.mc_deserialize (data : List Nat) : DeserResult Nat :=
  match data with
  | [] => .error .eof
  | b :: rest => .ok (b, rest)

/-- Modelled from the spec: `u16::mc_serialize` (big-endian, two bytes). -/
def u16.mc_serialize (v : Nat) : List Nat := beBytes 2 v

/-- Modelled from the spec: `u16::mc_deserialize`. -/
def u16.mc_deserialize (data : List Nat) : DeserResult Nat := readBE 2 0 data

/-- Modelled from the spec: `i32::mc_serialize` (big-endian four bytes of
the unsigned pattern). -/
def i32.mc_serialize (v : Int) : List Nat := beBytes 4 (toUnsigned32 v)

/-- Modelled from the spec: `i32::mc_deserialize`. -/
def i32.mc_deserialize (data : List Nat) : DeserResult Int :=
  dbind (readBE 4 0 data) fun u rest => .ok (fromUnsigned32 u, rest)

/-- Modelled from the spec: `bool::mc_serialize` (one byte, `0x01`/`0x00`). -/
def bool.mc_serialize (v : Bool) : List Nat := [if v then 1 else 0]

/-- Modelled from the spec: `bool::mc_deserialize`; any byte other than
`0x00`/`0x01` is a decode error. -/
def bool.mc_deserialize (data : List Nat) : DeserResult Bool :=
  match data with
  | [] => .error .eof
  | 0 :: rest => .ok (false, rest)
  | 1 :: rest => .ok (true, rest)
  | b :: _ => .error (.cannotUnderstandValue ("invalid bool value " ++ toString b))

/-- An `f32` field is represented by its 32-bit IEEE-754 pattern; on the
wire it is that pattern's four big-endian bytes (modelled from the spec). -/
def f32.mc_serialize (bits : Nat) : List Nat := beBytes 4 (bits % 2 ^ 32)

/-- Modelled from the spec: `f32::mc_deserialize` (four bytes to a pattern). -/
def f32.mc_deserialize (data : List Nat) : DeserResult Nat := readBE 4 0 data

/-- Modelled from the spec: `String::mc_serialize` — VarInt byte length
followed by the UTF-8 bytes.  Rust strings are modelled by their UTF-8 byte
lists. -/
def McString.mc_serialize (s : List Nat) : List Nat :=
  VarInt.mc_serialize (varint_from_usize s.length) ++ s

/-- Modelled from the spec: `String::mc_deserialize` — read the VarInt
length, then exactly that many bytes (EOF if fewer remain). -/
def McString.mc_deserialize (data : List Nat) : DeserResult (List Nat) :=
  dbind (VarInt.mc_deserialize data) fun len rest =>
    let n := varint_to_usize len
    if rest.length < n then .error .eof
    else .ok (rest.take n, rest.drop n)

-- ### Generic container combinators (modelled from the spec, `types.rs`)

/-- Modelled from the spec: `Option<T>::mc_serialize` — a boolean presence
tag, then the value if present. -/
def optionSerialize (ser : α → List Nat) : Option α → List Nat
  | none => bool.mc_serialize false
  | some v => bool.mc_serialize true ++ ser v

/-- Modelled from the spec: `Option<T>::mc_deserialize`. -/
def optionDeserialize (de : List Nat → DeserResult α) (data : List Nat) :
    DeserResult (Option α) :=
  dbind (bool.mc_deserialize data) fun present rest =>
    if present then
      dbind (de rest) fun v rest2 => .ok (some v, rest2)
    else .ok (none, rest)

/-- Decode exactly `n` consecutive elements, propagating the first
per-element error (the `for _ in 0..count` loops of the source). -/
def deserializeN (de : List Nat → DeserResult α) : Nat → List Nat → DeserResult (List α)
  | 0, data => .ok ([], data)
  | n + 1, data =>
    dbind (de data) fun x rest =>
      dbind (deserializeN de n rest) fun xs rest2 => .ok (x :: xs, rest2)

/-- Modelled from the spec: `VarIntCountedArray<T>::mc_serialize` — the
VarInt count computed from the element list's actual length
(`varint_from_usize`), then each element in order. -/
def VarIntCountedArray.mc_serialize (ser : α → List Nat) (xs : List α) : List Nat :=
  VarInt.mc_serialize (varint_from_usize xs.length) ++ (xs.map ser).flatten

/-- Modelled from the spec: `VarIntCountedArray<T>::mc_deserialize` — read
the VarInt count, convert with `varint_to_usize`, then decode exactly that
many elements. -/
def VarIntCountedArray.mc_deserialize (de : List Nat → DeserResult α)
    (data : List Nat) : DeserResult (List α) :=
  dbind (VarInt.mc_deserialize data) fun count rest =>
    deserializeN de (varint_to_usize count) rest

/-- `RemainingBytes::mc_serialize` from the source: the raw bytes. -/
def RemainingBytes.mc_serialize (v : List Nat) : List Nat := v

/-- `RemainingBytes::mc_deserialize` from the source: take everything,
leave nothing. -/
def RemainingBytes.mc_deserialize (data : List Nat) : DeserResult (List Nat) :=
  .ok (data, [])

-- ### Helper lemmas for primitives and combinators

theorem readBE_beBytes (w : Nat) :
    ∀ acc u rest, readBE w acc (beBytes w u ++ rest) =
      .ok (acc * 2 ^ (8 * w) + u % 2 ^ (8 * w), rest) := by
  induction w with
  | zero => intro acc u rest; simp [readBE, beBytes, Nat.mod_one]
  | succ w ih =>
    intro acc u rest
    rw [beBytes, List.cons_append, readBE, ih]
    congr 2
    have h1 : 2 ^ (8 * (w + 1)) = 2 ^ (8 * w) * 0x100 := by ring
    have h2 : u % (2 ^ (8 * w) * 0x100) =
        u % 2 ^ (8 * w) + 2 ^ (8 * w) * (u / 2 ^ (8 * w) % 0x100) := Nat.mod_mul
    rw [h1, h2]
    ring

theorem readBE_beBytes_zero (w u : Nat) (hu : u < 2 ^ (8 * w)) (rest : List Nat) :
    readBE w 0 (beBytes w u ++ rest) = .ok (u, rest) := by
  rw [readBE_beBytes]
  simp [Nat.mod_eq_of_lt hu]

theorem u16_roundtrip (v : Nat) (hv : v < 2 ^ 16) (rest : List Nat) :
    u16.mc_deserialize (u16.mc_serialize v ++ rest) = .ok (v, rest) := by
  unfold u16.mc_serialize u16.mc_deserialize
  exact readBE_beBytes_zero 2 v (by norm_num; omega) rest

theorem i32_roundtrip (v : Int) (h1 : -(2 ^ 31) ≤ v) (h2 : v < 2 ^ 31) (rest : List Nat) :
    i32.mc_deserialize (i32.mc_serialize v ++ rest) = .ok (v, rest) := by
  unfold i32.mc_serialize i32.mc_deserialize
  rw [readBE_beBytes_zero 4 _ (by have := toUnsigned32_lt v; norm_num; omega) rest,
    dbind_ok, fromUnsigned32_toUnsigned32 v h1 h2]

theorem f32_roundtrip (bits : Nat) (h : bits < 2 ^ 32) (rest : List Nat) :
    f32.mc_deserialize (f32.mc_serialize bits ++ rest) = .ok (bits, rest) := by
  unfold f32.mc_serialize f32.mc_deserialize
  rw [Nat.mod_eq_of_lt h]
  exact readBE_beBytes_zero 4 bits (by norm_num; omega) rest

theorem bool_roundtrip (b : Bool) (rest : List Nat) :
    bool.mc_deserialize (bool.mc_serialize b ++ rest) = .ok (b, rest) := by
  cases b <;> rfl

theorem string_roundtrip (s : List Nat) (h : s.length < 2 ^ 31) (rest : List Nat) :
    McString.mc_deserialize (McString.mc_serialize s ++ rest) = .ok (s, rest) := by
  unfold McString.mc_serialize McString.mc_deserialize
  have hfrom : varint_from_usize s.length = (s.length : Int) := by
    unfold varint_from_usize fromUnsigned32
    have hm : s.length % 2 ^ 32 = s.length := Nat.mod_eq_of_lt (by omega)
    rw [hm]
    simp only [if_pos (by omega : s.length < 2 ^ 31)]
  rw [List.append_assoc, hfrom,
    varint_roundtrip (s.length : Int) (by omega) (by omega) (s ++ rest), dbind_ok]
  simp only [varint_to_usize, usizeOfI32]
  have hn : (((s.length : Int)) % 2 ^ 64).toNat = s.length := by omega
  rw [hn]
  have hlen : ¬ ((s ++ rest).length < s.length) := by simp
  simp only [hlen, if_false]
  rw [List.take_left, List.drop_left]

theorem option_roundtrip (ser : α → List Nat) (de : List Nat → DeserResult α)
    (hrt : ∀ v rest, de (ser v ++ rest) = .ok (v, rest)) (v : Option α) (rest : List Nat) :
    optionDeserialize de (optionSerialize ser v ++ rest) = .ok (v, rest) := by
  cases v with
  | none => rfl
  | some x =>
    unfold optionSerialize optionDeserialize
    rw [List.append_assoc, bool_roundtrip true (ser x ++ rest), dbind_ok,
      if_pos rfl, hrt, dbind_ok]

theorem deserializeN_length (de : List Nat → DeserResult α) :
    ∀ n data xs rest, deserializeN de n data = .ok (xs, rest) → xs.length = n := by
  intro n
  induction n with
  | zero =>
    intro data xs rest h
    rw [deserializeN] at h
    simp only [Except.ok.injEq, Prod.mk.injEq] at h
    rw [← h.1]
    rfl
  | succ n ih =>
    intro data xs rest h
    rw [deserializeN] at h
    obtain ⟨x, mid, _, h2⟩ := dbind_eq_ok _ _ _ _ h
    obtain ⟨ys, mid2, h3, h4⟩ := dbind_eq_ok _ _ _ _ h2
    simp only [Except.ok.injEq, Prod.mk.injEq] at h4
    rw [← h4.1, List.length_cons, ih _ _ _ h3]

theorem deserializeN_chunks (de : List Nat → DeserResult α) :
    ∀ (entries : List (α × List Nat)) (rest : List Nat),
      (∀ p ∈ entries, ∀ tail, de (p.2 ++ tail) = .ok (p.1, tail)) →
      deserializeN de entries.length ((entries.map Prod.snd).flatten ++ rest) =
        .ok (entries.map Prod.fst, rest) := by
  intro entries
  induction entries with
  | nil => intro rest _; simp [deserializeN]
  | cons p ptl ih =>
    intro rest hde
    rw [List.length_cons, deserializeN]
    simp only [List.map_cons, List.flatten_cons, List.append_assoc]
    rw [hde p (List.mem_cons_self p ptl) _, dbind_ok,
      ih rest (fun q hq tail => hde q (List.mem_cons_of_mem p hq) tail), dbind_ok]

theorem counted_array_roundtrip (ser : α → List Nat) (de : List Nat → DeserResult α)
    (hrt : ∀ v rest, de (ser v ++ rest) = .ok (v, rest))
    (xs : List α) (hlen : xs.length < 2 ^ 31) (rest : List Nat) :
    VarIntCountedArray.mc_deserialize de (VarIntCountedArray.mc_serialize ser xs ++ rest) =
      .ok (xs, rest) := by
  unfold VarIntCountedArray.mc_serialize VarIntCountedArray.mc_deserialize
  have hfrom : varint_from_usize xs.length = (xs.length : Int) := by
    unfold varint_from_usize fromUnsigned32
    have hm : xs.length % 2 ^ 32 = xs.length := Nat.mod_eq_of_lt (by omega)
    rw [hm]
    simp only [if_pos (by omega : xs.length < 2 ^ 31)]
  rw [List.append_assoc, hfrom,
    varint_roundtrip (xs.length : Int) (by omega) (by omega) _, dbind_ok]
  have hto : varint_to_usize ((xs.length : Int)) = xs.length := by
    unfold varint_to_usize usizeOfI32
    omega
  rw [hto]
  have hchunks := deserializeN_chunks de (xs.map (fun x => (x, ser x))) rest
    (by intro p hp tail
        simp only [List.mem_map] at hp
        obtain ⟨x, _, rfl⟩ := hp
        exact hrt x tail)
  have hfst : (xs.map (fun x => (x, ser x))).map Prod.fst = xs := by
    simp [Function.comp_def]
  have hsnd : (xs.map (fun x => (x, ser x))).map Prod.snd = xs.map ser := by
    simp [Function.comp_def]
  have hlen2 : (xs.map (fun x => (x, ser x))).length = xs.length := by simp
  rw [hfst, hsnd, hlen2] at hchunks
  exact hchunks

-- ### UUID4 (modelled from the spec, `uuid.rs`)

/-- Lowercase hex digit character code for a nibble. -/
def hexDigitChar (d : Nat) : Nat := if d < 10 then 48 + d else 87 + d

/-- `n` big-endian lowercase hex digit character codes of `u % 16^n`. -/
def hexDigits : Nat → Nat → List Nat
  | 0, _ => []
  | n + 1, u => hexDigitChar (u / 16 ^ n % 16) :: hexDigits n u

/-- Value of one hex digit character code, upper or lower case. -/
def hexDigitVal (c : Nat) : Option Nat :=
  if 48 ≤ c ∧ c ≤ 57 then some (c - 48)
  else if 97 ≤ c ∧ c ≤ 102 then some (c - 87)
  else if 65 ≤ c ∧ c ≤ 70 then some (c - 55)
  else none

/-- Read exactly `n` hex digits into an accumulator, failing on any
non-hex character or premature end. -/
def readHexGroup : Nat → Nat → List Nat → Option (Nat × List Nat)
  | 0, acc, s => some (acc, s)
  | n + 1, acc, s =>
    match s with
    | [] => none
    | c :: rest =>
      match hexDigitVal c with
      | some d => readHexGroup n (acc * 16 + d) rest
      | none => none

/-- Expect a dash (`-`, code 45). -/
def expectDash : List Nat → Option (List Nat)
  | 45 :: rest => some rest
  | _ => none

/-- Modelled from the spec: `UUID4::to_string` (`uuid.rs`) — the canonical
dashed 8-4-4-4-12 lowercase hex grouping of the 128-bit value. -/
def UUID4.to_string (u : Nat) : List Nat :=
  hexDigits 8 (u / 16 ^ 24) ++ 45 ::
    (hexDigits 4 (u / 16 ^ 20) ++ 45 ::
      (hexDigits 4 (u / 16 ^ 16) ++ 45 ::
        (hexDigits 4 (u / 16 ^ 12) ++ 45 :: hexDigits 12 u)))

/-- Modelled from the spec: `UUID4::parse` (`uuid.rs`) — accept exactly the
dashed 8-4-4-4-12 hex grouping and "reject malformed strings rather than
guess". -/
def UUID4.parse (s : List Nat) : Option Nat :=
  match readHexGroup 8 0 s with
  | none => none
  | some (a, s) =>
    match expectDash s with
    | none => none
    | some s =>
      match readHexGroup 4 0 s with
      | none => none
      | some (b, s) =>
        match expectDash s with
        | none => none
        | some s =>
          match readHexGroup 4 0 s with
          | none => none
          | some (c, s) =>
            match expectDash s with
            | none => none
            | some s =>
              match readHexGroup 4 0 s with
              | none => none
              | some (d, s) =>
                match expectDash s with
                | none => none
                | some s =>
                  match readHexGroup 12 0 s with
                  | none => none
                  | some (e, s) =>
                    match s with
                    | [] => some (a * 16 ^ 24 + b * 16 ^ 20 + c * 16 ^ 16 +
                        d * 16 ^ 12 + e)
                    | _ => none

/-- Modelled from the spec: `UUID4::mc_serialize` — "16 raw bytes on the
wire", big-endian. -/
def UUID4.mc_serialize (u : Nat) : List Nat := beBytes 16 u

/-- Modelled from the spec: `UUID4::mc_deserialize`. -/
def UUID4.mc_deserialize (data : List Nat) : DeserResult Nat := readBE 16 0 data

theorem uuid_bytes_roundtrip (u : Nat) (h : u < 2 ^ 128) (rest : List Nat) :
    UUID4.mc_deserialize (UUID4.mc_serialize u ++ rest) = .ok (u, rest) := by
  unfold UUID4.mc_serialize UUID4.mc_deserialize
  exact readBE_beBytes_zero 16 u (by norm_num; omega) rest

theorem hexDigitVal_hexDigitChar (d : Nat) (h : d < 16) :
    hexDigitVal (hexDigitChar d) = some d := by
  have hall : ∀ x : Fin 16, hexDigitVal (hexDigitChar x.1) = some x.1 := by decide
  exact hall ⟨d, h⟩

theorem readHexGroup_hexDigits (n : Nat) :
    ∀ acc u rest, readHexGroup n acc (hexDigits n u ++ rest) =
      some (acc * 16 ^ n + u % 16 ^ n, rest) := by
  induction n with
  | zero => intro acc u rest; simp [readHexGroup, hexDigits, Nat.mod_one]
  | succ n ih =>
    intro acc u rest
    rw [hexDigits, List.cons_append, readHexGroup,
      hexDigitVal_hexDigitChar _ (Nat.mod_lt _ (by omega))]
    simp only
    rw [ih]
    congr 2
    have h1 : (16:Nat) ^ (n + 1) = 16 ^ n * 16 := by ring
    have h2 : u % (16 ^ n * 16) =
        u % 16 ^ n + 16 ^ n * (u / 16 ^ n % 16) := Nat.mod_mul
    rw [h1, h2]
    ring

theorem expectDash_cons (rest : List Nat) : expectDash (45 :: rest) = some rest := rfl

theorem uuid_parse_to_string (u : Nat) (h : u < 2 ^ 128) :
    UUID4.parse (UUID4.to_string u) = some u := by
  unfold UUID4.to_string UUID4.parse
  simp only [readHexGroup_hexDigits, expectDash_cons, Nat.zero_mul, Nat.zero_add]
  rw [← List.append_nil (hexDigits 12 u)]
  simp only [readHexGroup_hexDigits, Nat.zero_mul, Nat.zero_add]
  have e1 : (16:Nat) ^ 8 = 2 ^ 32 := by norm_num
  have e2 : (16:Nat) ^ 4 = 2 ^ 16 := by norm_num
  have e3 : (16:Nat) ^ 12 = 2 ^ 48 := by norm_num
  have e4 : (16:Nat) ^ 24 = 2 ^ 96 := by norm_num
  have e5 : (16:Nat) ^ 20 = 2 ^ 80 := by norm_num
  have e6 : (16:Nat) ^ 16 = 2 ^ 64 := by norm_num
  congr 1
  rw [e1, e2, e3, e4, e5, e6]
  omega

-- ### TeamMember (from `v1_15_2.rs`)

/-- `TeamMember` from the source: a player name or an entity UUID,
distinguished only by the string's content. -/
inductive TeamMember where
  | Player (name : List Nat)
  | Entity (id : Nat)
  deriving DecidableEq, Repr

/-- `TeamMember::mc_serialize` from the source: a `Player` writes the name
string, an `Entity` writes `entity_id.to_string()`. -/
def TeamMember.mc_serialize : TeamMember → List Nat
  | .Player username => McString.mc_serialize username
  | .Entity entity_id => McString.mc_serialize (UUID4.to_string entity_id)

/-- `TeamMember::mc_deserialize` from the source: read a string; if it
parses as a UUID the member is an `Entity`, otherwise a `Player`. -/
def TeamMember.mc_deserialize (data : List Nat) : DeserResult TeamMember :=
  dbind (McString.mc_deserialize data) fun raw rest =>
    match UUID4.parse raw with
    | some entity_id => .ok (.Entity entity_id, rest)
    | none => .ok (.Player raw, rest)

theorem hexDigits_length (n : Nat) : ∀ u, (hexDigits n u).length = n := by
  induction n with
  | zero => intro u; rfl
  | succ n ih => intro u; rw [hexDigits, List.length_cons, ih]

theorem uuid_to_string_length (u : Nat) : (UUID4.to_string u).length = 36 := by
  unfold UUID4.to_string
  simp [hexDigits_length]

/-- A `TeamMember` value is legal when a `Player` name is not in UUID
textual form (such values cannot round-trip, see the C1 counterexample)
and fits the string length bound; an `Entity` id is any 128-bit value. -/
def TeamMember.legal : TeamMember → Prop
  | .Player name => UUID4.parse name = none ∧ name.length < 2 ^ 31
  | .Entity id => id < 2 ^ 128

theorem team_member_roundtrip (tm : TeamMember) (hleg : tm.legal) (rest : List Nat) :
    TeamMember.mc_deserialize (TeamMember.mc_serialize tm ++ rest) = .ok (tm, rest) := by
  cases tm with
  | Player name =>
    obtain ⟨hparse, hlen⟩ := hleg
    unfold TeamMember.mc_serialize TeamMember.mc_deserialize
    rw [string_roundtrip name hlen rest, dbind_ok, hparse]
  | Entity id =>
    unfold TeamMember.mc_serialize TeamMember.mc_deserialize
    rw [string_roundtrip _ (by rw [uuid_to_string_length]; norm_num) rest, dbind_ok,
      uuid_parse_to_string id hleg]

-- ### Handshake (from `v1_15_2.rs`, `define_protocol!` entry and
-- `proto_byte_enum!(HandshakeNextState, ...)`)

/-- `HandshakeNextState` from the source: byte-discriminated enum,
`0x01 :: Status`, `0x02 :: Login`. -/
inductive HandshakeNextState where
  | Status
  | Login
  deriving DecidableEq, Repr

/-- The discriminant byte of a `HandshakeNextState` variant. -/
def HandshakeNextState.id : HandshakeNextState → Nat
  | .Status => 0x01
  | .Login => 0x02

/-- `HandshakeNextState::mc_serialize`: the discriminant byte only. -/
def HandshakeNextState.mc_serialize (v : HandshakeNextState) : List Nat :=
  u8.mc_serialize v.id

/-- `HandshakeNextState::mc_deserialize`: dispatch on the byte, unknown
discriminants are a decode error carrying the raw value. -/
def HandshakeNextState.mc_deserialize (data : List Nat) : DeserResult HandshakeNextState :=
  dbind (u8.mc_deserialize data) fun id rest =>
    match id with
    | 0x01 => .ok (.Status, rest)
    | 0x02 => .ok (.Login, rest)
    | other => .error (.cannotUnderstandValue
        ("invalid HandshakeNextState id " ++ toString other))

/-- `HandshakeSpec` from the source: version VarInt, address string,
port u16, next-state byte enum. -/
structure HandshakeSpec where
  version : Int
  server_address : List Nat
  server_port : Nat
  next_state : HandshakeNextState
  deriving DecidableEq, Repr

/-- `HandshakeSpec::mc_serialize`: the four fields in declaration order. -/
def HandshakeSpec.mc_serialize (v : HandshakeSpec) : List Nat :=
  VarInt.mc_serialize v.version ++ McString.mc_serialize v.server_address ++
    u16.mc_serialize v.server_port ++ HandshakeNextState.mc_serialize v.next_state

/-- `HandshakeSpec::mc_deserialize`: the four fields in declaration order. -/
def HandshakeSpec.mc_deserialize (data : List Nat) : DeserResult HandshakeSpec :=
  dbind (VarInt.mc_deserialize data) fun version data =>
  dbind (McString.mc_deserialize data) fun server_address data =>
  dbind (u16.mc_deserialize data) fun server_port data =>
  dbind (HandshakeNextState.mc_deserialize data) fun next_state data =>
  .ok (⟨version, server_address, server_port, next_state⟩, data)

/-- A legal `HandshakeSpec`: fields within their Rust types' ranges. -/
def HandshakeSpec.legal (v : HandshakeSpec) : Prop :=
  -(2 ^ 31) ≤ v.version ∧ v.version < 2 ^ 31 ∧
    v.server_address.length < 2 ^ 31 ∧ v.server_port < 2 ^ 16

theorem handshake_next_state_roundtrip (s : HandshakeNextState) (rest : List Nat) :
    HandshakeNextState.mc_deserialize (HandshakeNextState.mc_serialize s ++ rest) =
      .ok (s, rest) := by
  cases s <;> rfl

theorem handshake_roundtrip (v : HandshakeSpec) (hleg : v.legal) (rest : List Nat) :
    HandshakeSpec.mc_deserialize (HandshakeSpec.mc_serialize v ++ rest) = .ok (v, rest) := by
  obtain ⟨h1, h2, h3, h4⟩ := hleg
  unfold HandshakeSpec.mc_serialize HandshakeSpec.mc_deserialize
  rw [List.append_assoc, List.append_assoc, List.append_assoc,
    varint_roundtrip v.version h1 h2 _, dbind_ok,
    string_roundtrip v.server_address h3 _, dbind_ok,
    u16_roundtrip v.server_port h4 _, dbind_ok,
    handshake_next_state_roundtrip v.next_state rest, dbind_ok]

-- ### GameChangeReason (from `v1_15_2.rs`)

/-- Floor of the base-2 logarithm, by structural recursion on 32 halving
steps (exact for arguments below `2^32`). -/
def floorLog2Aux : Nat → Nat → Nat
  | 0, _ => 0
  | fuel + 1, n => if n ≥ 2 then floorLog2Aux fuel (n / 2) + 1 else 0

/-- Floor of the base-2 logarithm for values below `2^32`. -/
def floorLog2 (n : Nat) : Nat := floorLog2Aux 32 n

/-- IEEE-754 binary32 bit pattern of a small natural number (the Rust cast
`n as f32`); exact for `n < 2^24`, which covers every enum id cast here. -/
def natToF32bits (n : Nat) : Nat :=
  if n = 0 then 0
  else (floorLog2 n + 127) * 2 ^ 23 + (n - 2 ^ floorLog2 n) * 2 ^ (23 - floorLog2 n)

/-- The Rust saturating cast `f as u8` on an `f32` given by its bit
pattern: NaN to 0, negative values truncate/saturate to 0, positive values
truncate toward zero and saturate at 255. -/
def f32BitsAsU8 (bits : Nat) : Nat :=
  let s := bits / 2 ^ 31 % 2
  let e := bits / 2 ^ 23 % 2 ^ 8
  let frac := bits % 2 ^ 23
  if e = 255 then (if frac ≠ 0 then 0 else if s = 1 then 0 else 255)
  else if s = 1 then 0
  else if e = 0 then 0
  else
    let m := 2 ^ 23 + frac
    let t := if e ≥ 150 then m * 2 ^ (e - 150) else m / 2 ^ (150 - e)
    min t 255

set_option maxRecDepth 8000 in
theorem f32BitsAsU8_natToF32bits (n : Nat) (h : n < 256) :
    f32BitsAsU8 (natToF32bits n) = n := by
  have hall : ∀ x : Fin 256, f32BitsAsU8 (natToF32bits x.1) = x.1 := by decide
  exact hall ⟨n, h⟩

set_option maxRecDepth 8000 in
theorem natToF32bits_lt (n : Nat) (h : n < 256) : natToF32bits n < 2 ^ 32 := by
  have hall : ∀ x : Fin 256, natToF32bits x.1 < 2 ^ 32 := by decide
  exact hall ⟨n, h⟩

/-- `GameMode` from the source (`proto_byte_enum!`). -/
inductive GameMode where
  | Survival
  | Creative
  | Adventure
  | Spectator
  deriving DecidableEq, Repr

/-- The discriminant byte of a `GameMode` variant. -/
def GameMode.id : GameMode → Nat
  | .Survival => 0x00
  | .Creative => 0x01
  | .Adventure => 0x02
  | .Spectator => 0x03

/-- `GameMode::deserialize_with_id` (generated by `proto_byte_enum!`):
dispatch on a known id, otherwise a decode error carrying the value. -/
def GameMode.deserialize_with_id (id : Nat) (data : List Nat) : DeserResult GameMode :=
  match id with
  | 0x00 => .ok (.Survival, data)
  | 0x01 => .ok (.Creative, data)
  | 0x02 => .ok (.Adventure, data)
  | 0x03 => .ok (.Spectator, data)
  | other => .error (.cannotUnderstandValue ("invalid GameMode id " ++ toString other))

/-- `WinGameAction` from the source (`proto_byte_enum!`). -/
inductive WinGameAction where
  | Respawn
  | RollCreditsAndRespawn
  deriving DecidableEq, Repr

/-- The discriminant byte of a `WinGameAction` variant. -/
def WinGameAction.id : WinGameAction → Nat
  | .Respawn => 0x00
  | .RollCreditsAndRespawn => 0x01

/-- `WinGameAction::deserialize_with_id` (generated by `proto_byte_enum!`). -/
def WinGameAction.deserialize_with_id (id : Nat) (data : List Nat) :
    DeserResult WinGameAction :=
  match id with
  | 0x00 => .ok (.Respawn, data)
  | 0x01 => .ok (.RollCreditsAndRespawn, data)
  | other => .error (.cannotUnderstandValue ("invalid WinGameAction id " ++ toString other))

/-- `DemoEvent` from the source (`proto_byte_enum!`). -/
inductive DemoEvent where
  | ShowWelcomeScreen
  | TellMovementControls
  | TellJumpControl
  | TellInventoryControl
  | EndDemo
  deriving DecidableEq, Repr

/-- The discriminant byte of a `DemoEvent` variant. -/
def DemoEvent.id : DemoEvent → Nat
  | .ShowWelcomeScreen => 0x00
  | .TellMovementControls => 0x65
  | .TellJumpControl => 0x66
  | .TellInventoryControl => 0x67
  | .EndDemo => 0x68

/-- `DemoEvent::deserialize_with_id` (generated by `proto_byte_enum!`). -/
def DemoEvent.deserialize_with_id (id : Nat) (data : List Nat) : DeserResult DemoEvent :=
  match id with
  | 0x00 => .ok (.ShowWelcomeScreen, data)
  | 0x65 => .ok (.TellMovementControls, data)
  | 0x66 => .ok (.TellJumpControl, data)
  | 0x67 => .ok (.TellInventoryControl, data)
  | 0x68 => .ok (.EndDemo, data)
  | other => .error (.cannotUnderstandValue ("invalid DemoEvent id " ++ toString other))

/-- `RespawnRequestType` from the source (`proto_byte_enum!`). -/
inductive RespawnRequestType where
  | Screen
  | Immediate
  deriving DecidableEq, Repr

/-- The discriminant byte of a `RespawnRequestType` variant. -/
def RespawnRequestType.id : RespawnRequestType → Nat
  | .Screen => 0x00
  | .Immediate => 0x01

/-- `RespawnRequestType::deserialize_with_id` (generated by `proto_byte_enum!`). -/
def RespawnRequestType.deserialize_with_id (id : Nat) (data : List Nat) :
    DeserResult RespawnRequestType :=
  match id with
  | 0x00 => .ok (.Screen, data)
  | 0x01 => .ok (.Immediate, data)
  | other => .error (.cannotUnderstandValue
      ("invalid RespawnRequestType id " ++ toString other))

/-- `GameChangeReason` from the source.  The two raw `f32` payloads are
represented by their 32-bit patterns. -/
inductive GameChangeReason where
  | NoRespawnAvailable
  | EndRaining
  | BeginRaining
  | ChangeGameMode (mode : GameMode)
  | WinGame (action : WinGameAction)
  | Demo (event : DemoEvent)
  | ArrowHitPlayer
  | RainLevelChange (bits : Nat)
  | ThunderLevelChange (bits : Nat)
  | PufferfishSting
  | ElderGuardianMobAppearance
  | Respawn (kind : RespawnRequestType)
  deriving DecidableEq, Repr

/-- The reason-id byte written first by `GameChangeReason::mc_serialize`. -/
def GameChangeReason.reasonByte : GameChangeReason → Nat
  | .NoRespawnAvailable => 0x00
  | .EndRaining => 0x01
  | .BeginRaining => 0x02
  | .ChangeGameMode _ => 0x03
  | .WinGame _ => 0x04
  | .Demo _ => 0x05
  | .ArrowHitPlayer => 0x06
  | .RainLevelChange _ => 0x07
  | .ThunderLevelChange _ => 0x08
  | .PufferfishSting => 0x09
  | .ElderGuardianMobAppearance => 0x0A
  | .Respawn _ => 0x0B

/-- The `f32` value (as a bit pattern) written second by
`GameChangeReason::mc_serialize`: `body.id() as f32` for the enum-payload
variants, the raw float for the level changes, `0 as f32` otherwise. -/
def GameChangeReason.floatBits : GameChangeReason → Nat
  | .ChangeGameMode body => natToF32bits body.id
  | .WinGame body => natToF32bits body.id
  | .Demo body => natToF32bits body.id
  | .RainLevelChange body => body
  | .ThunderLevelChange body => body
  | .Respawn body => natToF32bits body.id
  | _ => 0

/-- `GameChangeReason::mc_serialize` from the source: the reason-id byte,
then unconditionally the 4-byte float. -/
def GameChangeReason.mc_serialize (v : GameChangeReason) : List Nat :=
  u8.mc_serialize v.reasonByte ++ f32.mc_serialize v.floatBits

/-- `GameChangeReason::mc_deserialize` from the source: read the reason-id
byte and the 4-byte float unconditionally, then dispatch on the id
(`value as u8` selects the sub-enum variant for ids 3, 4, 5, 0x0B). -/
def GameChangeReason.mc_deserialize (data : List Nat) : DeserResult GameChangeReason :=
  dbind (u8.mc_deserialize data) fun reason_id data =>
  dbind (f32.mc_deserialize data) fun value data =>
  match reason_id with
  | 0x00 => .ok (.NoRespawnAvailable, data)
  | 0x01 => .ok (.EndRaining, data)
  | 0x02 => .ok (.BeginRaining, data)
  | 0x03 => dbind (GameMode.deserialize_with_id (f32BitsAsU8 value) data)
      fun mode data => .ok (.ChangeGameMode mode, data)
  | 0x04 => dbind (WinGameAction.deserialize_with_id (f32BitsAsU8 value) data)
      fun mode data => .ok (.WinGame mode, data)
  | 0x05 => dbind (DemoEvent.deserialize_with_id (f32BitsAsU8 value) data)
      fun mode data => .ok (.Demo mode, data)
  | 0x06 => .ok (.ArrowHitPlayer, data)
  | 0x07 => .ok (.RainLevelChange value, data)
  | 0x08 => .ok (.ThunderLevelChange value, data)
  | 0x09 => .ok (.PufferfishSting, data)
  | 0x0A => .ok (.ElderGuardianMobAppearance, data)
  | 0x0B => dbind (RespawnRequestType.deserialize_with_id (f32BitsAsU8 value) data)
      fun mode data => .ok (.Respawn mode, data)
  | other => .error (.cannotUnderstandValue
      ("invalid game change reason id " ++ toString other))

/-- A legal `GameChangeReason`: raw float payloads are 32-bit patterns. -/
def GameChangeReason.legal : GameChangeReason → Prop
  | .RainLevelChange bits => bits < 2 ^ 32
  | .ThunderLevelChange bits => bits < 2 ^ 32
  | _ => True

theorem game_change_reason_roundtrip (v : GameChangeReason) (hleg : v.legal)
    (rest : List Nat) :
    GameChangeReason.mc_deserialize (GameChangeReason.mc_serialize v ++ rest) =
      .ok (v, rest) := by
  cases v with
  | ChangeGameMode m => cases m <;> rfl
  | WinGame a => cases a <;> rfl
  | Demo e => cases e <;> rfl
  | Respawn k => cases k <;> rfl
  | RainLevelChange bits =>
    have hb : bits < 2 ^ 32 := hleg
    rw [show GameChangeReason.mc_serialize (.RainLevelChange bits) =
      0x07 :: f32.mc_serialize bits from rfl, List.cons_append]
    unfold GameChangeReason.mc_deserialize
    rw [show u8.mc_deserialize (0x07 :: (f32.mc_serialize bits ++ rest)) =
        .ok (0x07, f32.mc_serialize bits ++ rest) from rfl, dbind_ok,
      f32_roundtrip bits hb rest, dbind_ok]
  | ThunderLevelChange bits =>
    have hb : bits < 2 ^ 32 := hleg
    rw [show GameChangeReason.mc_serialize (.ThunderLevelChange bits) =
      0x08 :: f32.mc_serialize bits from rfl, List.cons_append]
    unfold GameChangeReason.mc_deserialize
    rw [show u8.mc_deserialize (0x08 :: (f32.mc_serialize bits ++ rest)) =
        .ok (0x08, f32.mc_serialize bits ++ rest) from rfl, dbind_ok,
      f32_roundtrip bits hb rest, dbind_ok]
  | _ => rfl

theorem beBytes_length (w : Nat) : ∀ u, (beBytes w u).length = w := by
  induction w with
  | zero => intro u; rfl
  | succ w ih => intro u; rw [beBytes, List.length_cons, ih]

theorem readBE_exact (b4 : List Nat) :
    ∀ w acc rest, b4.length = w →
      ∃ val, readBE w acc (b4 ++ rest) = .ok (val, rest) := by
  induction b4 with
  | nil =>
    intro w acc rest hlen
    have : w = 0 := by simpa using hlen.symm
    subst this
    exact ⟨acc, rfl⟩
  | cons b tl ih =>
    intro w acc rest hlen
    obtain ⟨w', rfl⟩ : ∃ w', w = w' + 1 := ⟨w - 1, by simp at hlen; omega⟩
    rw [List.cons_append, readBE]
    exact ih w' (acc * 0x100 + b) rest (by simpa using hlen)

theorem gameMode_with_id_cases (x : Nat) (data : List Nat) :
    (∃ e, GameMode.deserialize_with_id x data = .error e)
    ∨ (∃ m, GameMode.deserialize_with_id x data = .ok (m, data)) := by
  rw [GameMode.deserialize_with_id.eq_def]
  split <;> first | exact .inr ⟨_, rfl⟩ | exact .inl ⟨_, rfl⟩

theorem winGameAction_with_id_cases (x : Nat) (data : List Nat) :
    (∃ e, WinGameAction.deserialize_with_id x data = .error e)
    ∨ (∃ m, WinGameAction.deserialize_with_id x data = .ok (m, data)) := by
  rw [WinGameAction.deserialize_with_id.eq_def]
  split <;> first | exact .inr ⟨_, rfl⟩ | exact .inl ⟨_, rfl⟩

theorem demoEvent_with_id_cases (x : Nat) (data : List Nat) :
    (∃ e, DemoEvent.deserialize_with_id x data = .error e)
    ∨ (∃ m, DemoEvent.deserialize_with_id x data = .ok (m, data)) := by
  rw [DemoEvent.deserialize_with_id.eq_def]
  split <;> first | exact .inr ⟨_, rfl⟩ | exact .inl ⟨_, rfl⟩

theorem respawnRequestType_with_id_cases (x : Nat) (data : List Nat) :
    (∃ e, RespawnRequestType.deserialize_with_id x data = .error e)
    ∨ (∃ m, RespawnRequestType.deserialize_with_id x data = .ok (m, data)) := by
  rw [RespawnRequestType.deserialize_with_id.eq_def]
  split <;> first | exact .inr ⟨_, rfl⟩ | exact .inl ⟨_, rfl⟩

theorem game_change_reason_serialize_shape (v : GameChangeReason) :
    GameChangeReason.mc_serialize v =
      v.reasonByte :: beBytes 4 (v.floatBits % 2 ^ 32) := by
  cases v <;> rfl

theorem game_change_reason_unknown_id (id : Nat) (b4 rest : List Nat)
    (hgt : 0x0B < id) (hlen : b4.length = 4) :
    GameChangeReason.mc_deserialize (id :: (b4 ++ rest)) =
      .error (.cannotUnderstandValue ("invalid game change reason id " ++ toString id)) := by
  obtain ⟨k, rfl⟩ : ∃ k, id = k + 12 := ⟨id - 12, by omega⟩
  unfold GameChangeReason.mc_deserialize
  rw [show u8.mc_deserialize ((k + 12) :: (b4 ++ rest)) =
    .ok (k + 12, b4 ++ rest) from rfl, dbind_ok]
  obtain ⟨val, hval⟩ := readBE_exact b4 4 0 rest hlen
  rw [show f32.mc_deserialize (b4 ++ rest) = readBE 4 0 (b4 ++ rest) from rfl,
    hval, dbind_ok]
  rfl

-- ### CommandNodeSpec (from `v1_15_2.rs`)

/-- `CommandNode` from the source, with the argument-node payload type
abstracted: `CommandArgumentNodeSpec` transitively involves the string-keyed
parser catalogue whose payload codecs live outside the byte-dispatch logic
under scrutiny here. -/
inductive CommandNodeOf (ArgNode : Type) where
  | Root
  | Argument (body : ArgNode)
  | Literal (name : List Nat)

/-- `CommandNodeSpec` from the source. -/
structure CommandNodeSpecOf (ArgNode : Type) where
  children_indices : List Int
  redirect_node : Option Int
  is_executable : Bool
  node : CommandNodeOf ArgNode

/-- `CommandNodeSpec::mc_deserialize` from the source, parametrized by the
`CommandArgumentNodeSpec::deserialize` step `argDe` (called with the
has-suggestion-types flag bit).  The source's
`other => panic!("impossible condition (bitmask) {}", other)` arm of
`match flags & 0x03` is modelled by the distinguished `panicked` outcome:
a Rust panic, unlike every other arm, aborts instead of returning `Err`. -/
def CommandNodeSpec.deserializeWith {ArgNode : Type}
    (argDe : Bool → List Nat → DeserResult ArgNode)
    (data : List Nat) : DeserResult (CommandNodeSpecOf ArgNode) :=
  dbind (u8.mc_deserialize data) fun flags data =>
  dbind (VarIntCountedArray.mc_deserialize VarInt.mc_deserialize data)
    fun children_indices data =>
  dbind (if flags &&& 0x08 ≠ 0 then
      dbind (VarInt.mc_deserialize data) fun redirect_node data =>
        .ok (some redirect_node, data)
    else .ok (none, data)) fun redirect_node data =>
  dbind (match flags &&& 0x03 with
    | 0x00 => .ok (CommandNodeOf.Root, data)
    | 0x01 => dbind (McString.mc_deserialize data) fun name data =>
        .ok (CommandNodeOf.Literal name, data)
    | 0x02 => dbind (argDe (flags &&& 0x10 ≠ 0) data) fun body data =>
        .ok (CommandNodeOf.Argument body, data)
    | other => .error (.panicked ("impossible condition (bitmask) " ++ toString other)))
    fun node data =>
  .ok (⟨children_indices, redirect_node, flags &&& 0x04 ≠ 0, node⟩, data)

/-- **C2**: the spec says an unrecognized tagged-union discriminant is a
decode error carrying the offending raw value, and never a panic.
`GameChangeReason::mc_deserialize` honors this for every reason id above
`0x0B`; but `CommandNodeSpec::mc_deserialize` PANICS (does not return a
decode error) when the flag byte's low two bits are `0x03` — the input
`[0x03, 0x00]` (flags `0x03`, empty child list) reaches the source's
`panic!("impossible condition (bitmask) {}")` arm, which external input can
trigger.  This theorem exhibits both behaviours; the panic contradicts the
claim, so the claim is a code bug finding. -/
theorem c2_unknown_discriminant_behaviour :
    (∀ (ArgNode : Type) (argDe : Bool → List Nat → DeserResult ArgNode),
        CommandNodeSpec.deserializeWith argDe [0x03, 0x00] =
          .error (.panicked "impossible condition (bitmask) 3"))
    ∧ (∀ id b4 rest, 0x0B < id → b4.length = 4 →
        GameChangeReason.mc_deserialize (id :: (b4 ++ rest)) =
          .error (.cannotUnderstandValue
            ("invalid game change reason id " ++ toString id))) :=
  ⟨fun _ _ => rfl, game_change_reason_unknown_id⟩

/-- Witness for C2 at concrete inputs: the panic on `[0x03, 0x00]` with a
concrete argument decoder, and the decode error for reason id `0x0C`. -/
theorem c2_witness :
    CommandNodeSpec.deserializeWith (fun (_ : Bool) (_ : List Nat) =>
        (.error .eof : DeserResult Unit)) [0x03, 0x00] =
      .error (.panicked "impossible condition (bitmask) 3")
    ∧ GameChangeReason.mc_deserialize (0x0C :: ([0, 0, 0, 0] ++ [5])) =
      .error (.cannotUnderstandValue "invalid game change reason id 12") :=
  ⟨c2_unknown_discriminant_behaviour.1 Unit _,
   c2_unknown_discriminant_behaviour.2 0x0C [0, 0, 0, 0] [5] (by decide) (by decide)⟩

/-- **C7**: `GameChangeReason` is always encoded as one reason-id byte
followed unconditionally by a 4-byte float; for every variant with no
numeric payload the float written is 0.0 (bytes `00 00 00 00`); decode
always consumes the 4-byte float whatever the reason id, returning the
remainder immediately after it. -/
theorem c7_game_change_reason_unconditional_float :
    (∀ v : GameChangeReason,
        GameChangeReason.mc_serialize v =
          v.reasonByte :: beBytes 4 (v.floatBits % 2 ^ 32)
        ∧ (GameChangeReason.mc_serialize v).length = 5)
    ∧ (GameChangeReason.mc_serialize .NoRespawnAvailable = [0x00, 0, 0, 0, 0]
      ∧ GameChangeReason.mc_serialize .EndRaining = [0x01, 0, 0, 0, 0]
      ∧ GameChangeReason.mc_serialize .BeginRaining = [0x02, 0, 0, 0, 0]
      ∧ GameChangeReason.mc_serialize .ArrowHitPlayer = [0x06, 0, 0, 0, 0]
      ∧ GameChangeReason.mc_serialize .PufferfishSting = [0x09, 0, 0, 0, 0]
      ∧ GameChangeReason.mc_serialize .ElderGuardianMobAppearance = [0x0A, 0, 0, 0, 0])
    ∧ (∀ id b4 rest, b4.length = 4 →
        (∃ e, GameChangeReason.mc_deserialize (id :: (b4 ++ rest)) = .error e)
        ∨ (∃ v, GameChangeReason.mc_deserialize (id :: (b4 ++ rest)) = .ok (v, rest))) := by
  refine ⟨?_, ⟨rfl, rfl, rfl, rfl, rfl, rfl⟩, ?_⟩
  · intro v
    refine ⟨game_change_reason_serialize_shape v, ?_⟩
    rw [game_change_reason_serialize_shape v, List.length_cons, beBytes_length]
  · intro id b4 rest hlen
    unfold GameChangeReason.mc_deserialize
    rw [show u8.mc_deserialize (id :: (b4 ++ rest)) = .ok (id, b4 ++ rest) from rfl,
      dbind_ok]
    obtain ⟨val, hval⟩ := readBE_exact b4 4 0 rest hlen
    rw [show f32.mc_deserialize (b4 ++ rest) = readBE 4 0 (b4 ++ rest) from rfl,
      hval, dbind_ok]
    rcases Nat.lt_or_ge id 12 with hlt | hge
    · interval_cases id
      · exact .inr ⟨_, rfl⟩
      · exact .inr ⟨_, rfl⟩
      · exact .inr ⟨_, rfl⟩
      · rcases gameMode_with_id_cases (f32BitsAsU8 val) rest with ⟨e, he⟩ | ⟨m, hm⟩
        · exact .inl ⟨e, by rw [he]; rfl⟩
        · exact .inr ⟨.ChangeGameMode m, by rw [hm]; rfl⟩
      · rcases winGameAction_with_id_cases (f32BitsAsU8 val) rest with ⟨e, he⟩ | ⟨m, hm⟩
        · exact .inl ⟨e, by rw [he]; rfl⟩
        · exact .inr ⟨.WinGame m, by rw [hm]; rfl⟩
      · rcases demoEvent_with_id_cases (f32BitsAsU8 val) rest with ⟨e, he⟩ | ⟨m, hm⟩
        · exact .inl ⟨e, by rw [he]; rfl⟩
        · exact .inr ⟨.Demo m, by rw [hm]; rfl⟩
      · exact .inr ⟨_, rfl⟩
      · exact .inr ⟨_, rfl⟩
      · exact .inr ⟨_, rfl⟩
      · exact .inr ⟨_, rfl⟩
      · exact .inr ⟨_, rfl⟩
      · rcases respawnRequestType_with_id_cases (f32BitsAsU8 val) rest with ⟨e, he⟩ | ⟨m, hm⟩
        · exact .inl ⟨e, by rw [he]; rfl⟩
        · exact .inr ⟨.Respawn m, by rw [hm]; rfl⟩
    · obtain ⟨k, rfl⟩ : ∃ k, id = k + 12 := ⟨id - 12, by omega⟩
      exact .inl ⟨_, rfl⟩

/-- Witness for C7: the decode-consumption conjunct applied at reason id 0
with a concrete 4-byte float and non-empty remainder. -/
theorem c7_witness :
    (∃ e, GameChangeReason.mc_deserialize (0x00 :: ([0, 0, 0, 0] ++ [9])) = .error e)
    ∨ (∃ v, GameChangeReason.mc_deserialize (0x00 :: ([0, 0, 0, 0] ++ [9])) =
        .ok (v, [9])) :=
  c7_game_change_reason_unconditional_float.2.2 0x00 [0, 0, 0, 0] [9] (by decide)

-- ### C1: the round-trip law and its TeamMember counterexample

/-- The 36-character player name `"11111111-1111-1111-1111-111111111111"`:
a perfectly legal Rust `String` for `TeamMember::Player`, which happens to
be in valid UUID textual form. -/
def uuidLikeName : List Nat :=
  List.replicate 8 49 ++ 45 ::
    (List.replicate 4 49 ++ 45 ::
      (List.replicate 4 49 ++ 45 ::
        (List.replicate 4 49 ++ 45 :: List.replicate 12 49)))

/-- **C1 counterexample**: the round-trip law fails as stated.  The legal
value `TeamMember::Player("11111111-1111-1111-1111-111111111111")`
serializes to its name string, but deserialization parses that string as a
UUID and returns `TeamMember::Entity(0x111...1)` — a different value — so
`decode(encode(v)) ≠ v` for this `v`. -/
theorem c1_counterexample :
    TeamMember.mc_deserialize
        (TeamMember.mc_serialize (.Player uuidLikeName) ++ []) =
      .ok (.Entity 0x11111111111111111111111111111111, [])
    ∧ TeamMember.mc_deserialize
        (TeamMember.mc_serialize (.Player uuidLikeName) ++ []) ≠
      .ok (.Player uuidLikeName, []) := by
  constructor <;> decide

/-- **C1 (amended)**: for the embedded wire types, combinators and message
shapes, deserializing the bytes produced by serializing any legal value `v`
succeeds, returns `v`, and consumes exactly the encoded bytes (arbitrary
suffix `rest` preserved) — with the exception forced by the counterexample:
a `TeamMember::Player` whose name is in valid UUID textual form decodes as
`TeamMember::Entity`, so `TeamMember` round-trips on the legal values whose
`Player` names are not UUID-shaped. -/
theorem c1_round_trip_amended :
    (∀ v : Int, -(2 ^ 31) ≤ v → v < 2 ^ 31 → ∀ rest,
        VarInt.mc_deserialize (VarInt.mc_serialize v ++ rest) = .ok (v, rest))
    ∧ (∀ b rest, bool.mc_deserialize (bool.mc_serialize b ++ rest) = .ok (b, rest))
    ∧ (∀ v rest, v < 2 ^ 16 →
        u16.mc_deserialize (u16.mc_serialize v ++ rest) = .ok (v, rest))
    ∧ (∀ v : Int, -(2 ^ 31) ≤ v → v < 2 ^ 31 → ∀ rest,
        i32.mc_deserialize (i32.mc_serialize v ++ rest) = .ok (v, rest))
    ∧ (∀ bits rest, bits < 2 ^ 32 →
        f32.mc_deserialize (f32.mc_serialize bits ++ rest) = .ok (bits, rest))
    ∧ (∀ s : List Nat, s.length < 2 ^ 31 → ∀ rest,
        McString.mc_deserialize (McString.mc_serialize s ++ rest) = .ok (s, rest))
    ∧ (∀ u rest, u < 2 ^ 128 →
        UUID4.mc_deserialize (UUID4.mc_serialize u ++ rest) = .ok (u, rest))
    ∧ (∀ (α : Type) (ser : α → List Nat) (de : List Nat → DeserResult α),
        (∀ v rest, de (ser v ++ rest) = .ok (v, rest)) →
        ∀ (v : Option α) rest,
          optionDeserialize de (optionSerialize ser v ++ rest) = .ok (v, rest))
    ∧ (∀ (α : Type) (ser : α → List Nat) (de : List Nat → DeserResult α),
        (∀ v rest, de (ser v ++ rest) = .ok (v, rest)) →
        ∀ xs : List α, xs.length < 2 ^ 31 → ∀ rest,
          VarIntCountedArray.mc_deserialize de
            (VarIntCountedArray.mc_serialize ser xs ++ rest) = .ok (xs, rest))
    ∧ (∀ v : List Nat,
        RemainingBytes.mc_deserialize (RemainingBytes.mc_serialize v) = .ok (v, []))
    ∧ (∀ tm : TeamMember, tm.legal → ∀ rest,
        TeamMember.mc_deserialize (TeamMember.mc_serialize tm ++ rest) = .ok (tm, rest))
    ∧ (∀ g : GameChangeReason, g.legal → ∀ rest,
        GameChangeReason.mc_deserialize (GameChangeReason.mc_serialize g ++ rest) =
          .ok (g, rest))
    ∧ (∀ h : HandshakeSpec, h.legal → ∀ rest,
        HandshakeSpec.mc_deserialize (HandshakeSpec.mc_serialize h ++ rest) =
          .ok (h, rest)) :=
  ⟨varint_roundtrip,
   bool_roundtrip,
   fun v rest hv => u16_roundtrip v hv rest,
   i32_roundtrip,
   fun bits rest h => f32_roundtrip bits h rest,
   string_roundtrip,
   fun u rest h => uuid_bytes_roundtrip u h rest,
   fun _ ser de hrt v rest => option_roundtrip ser de hrt v rest,
   fun _ ser de hrt xs hlen rest => counted_array_roundtrip ser de hrt xs hlen rest,
   fun _ => rfl,
   fun tm hleg rest => team_member_roundtrip tm hleg rest,
   fun g hleg rest => game_change_reason_roundtrip g hleg rest,
   fun h hleg rest => handshake_roundtrip h hleg rest⟩

/-- Witness for C1 at concrete inputs: the spec's own scenarios — VarInt
`25565`, a Handshake with address `"localhost"`, port `25565`, next state
`Status` — plus a UUID-carrying `TeamMember`, a `GameChangeReason`, and a
counted boolean array with a non-empty trailing suffix. -/
theorem c1_witness :
    VarInt.mc_deserialize (VarInt.mc_serialize 25565 ++ []) = .ok (25565, [])
    ∧ McString.mc_deserialize (McString.mc_serialize [104, 105] ++ [7]) =
        .ok ([104, 105], [7])
    ∧ TeamMember.mc_deserialize (TeamMember.mc_serialize (.Entity 5) ++ []) =
        .ok (.Entity 5, [])
    ∧ GameChangeReason.mc_deserialize
        (GameChangeReason.mc_serialize (.ChangeGameMode .Creative) ++ []) =
        .ok (.ChangeGameMode .Creative, [])
    ∧ HandshakeSpec.mc_deserialize (HandshakeSpec.mc_serialize
        ⟨754, [108, 111, 99, 97, 108, 104, 111, 115, 116], 25565, .Status⟩ ++ []) =
        .ok (⟨754, [108, 111, 99, 97, 108, 104, 111, 115, 116], 25565, .Status⟩, [])
    ∧ VarIntCountedArray.mc_deserialize bool.mc_deserialize
        (VarIntCountedArray.mc_serialize bool.mc_serialize [true, false] ++ [3]) =
        .ok ([true, false], [3]) :=
  ⟨c1_round_trip_amended.1 25565 (by norm_num) (by norm_num) [],
   c1_round_trip_amended.2.2.2.2.2.1 [104, 105] (by norm_num) [7],
   c1_round_trip_amended.2.2.2.2.2.2.2.2.2.2.1 (.Entity 5) (by norm_num [TeamMember.legal]) [],
   c1_round_trip_amended.2.2.2.2.2.2.2.2.2.2.2.1 (.ChangeGameMode .Creative)
     (by exact trivial) [],
   c1_round_trip_amended.2.2.2.2.2.2.2.2.2.2.2.2
     ⟨754, [108, 111, 99, 97, 108, 104, 111, 115, 116], 25565, .Status⟩
     (by refine ⟨by norm_num, by norm_num, by norm_num, by norm_num⟩) [],
   c1_round_trip_amended.2.2.2.2.2.2.2.2.1 Bool bool.mc_serialize bool.mc_deserialize
     bool_roundtrip [true, false] (by norm_num) [3]⟩

-- ### Lighting update (from `v1_15_2.rs`)

/-- `LIGHT_DATA_LENGTH` from the source. -/
def LIGHT_DATA_LENGTH : Nat := 2048

/-- `LIGHT_DATA_SECTIONS` from the source. -/
def LIGHT_DATA_SECTIONS : Nat := 18

/-- One light section: exactly 2048 bytes (`[u8; LIGHT_DATA_LENGTH]`). -/
def LightSection := {l : List Nat // l.length = LIGHT_DATA_LENGTH}

instance : DecidableEq LightSection := fun a b =>
  decidable_of_iff (a.val = b.val) Subtype.ext_iff.symm

/-- `LightingData` from the source: per-section optional fixed buffers
(`Box<[Option<[u8; 2048]>; 18]>`). -/
structure LightingData where
  data : List (Option LightSection)
  deriving DecidableEq

/-- The `for i in 0..LIGHT_DATA_SECTIONS` loop of
`LightingData::deserialize`, iterating over the remaining section indices
(`List.range 18` at the top call): for every bit set in the update mask,
read a VarInt length, reject it unless it is exactly 2048, then take
exactly 2048 bytes (EOF if fewer remain). -/
def LightingData.deserializeSections (update_mask : Int) :
    List Nat → List (Option LightSection) → List Nat →
      Except DeserializeErr (List (Option LightSection) × List Nat)
  | [], out, data => .ok (out, data)
  | i :: is, out, data =>
    if (toUnsigned32 update_mask).testBit i then
      dbind (VarInt.mc_deserialize data) fun length rest =>
        if usizeOfI32 length ≠ LIGHT_DATA_LENGTH then
          .error (.cannotUnderstandValue
            ("bad data length in light update " ++ toString length))
        else if hr : rest.length < LIGHT_DATA_LENGTH then .error .eof
        else
          LightingData.deserializeSections update_mask is
            (out.set i (some ⟨rest.take LIGHT_DATA_LENGTH, by
              rw [List.length_take]; omega⟩))
            (rest.drop LIGHT_DATA_LENGTH)
    else LightingData.deserializeSections update_mask is out data

/-- `LightingData::deserialize` from the source. -/
def LightingData.deserialize (update_mask : Int) (data : List Nat) :
    Except DeserializeErr (LightingData × List Nat) :=
  dbind (LightingData.deserializeSections update_mask
      (List.range LIGHT_DATA_SECTIONS) (List.replicate LIGHT_DATA_SECTIONS none) data)
    fun out data => .ok (⟨out⟩, data)

/-- The accumulated `out |= 1 << i` OR-loop of
`LightingData::compute_has_mask`, over indices below `n`. -/
def maskBitsAux (d : List (Option LightSection)) (has : Bool) : Nat → Nat
  | 0 => 0
  | i + 1 => maskBitsAux d has i ||| (if (d.getD i none).isSome = has then 1 <<< i else 0)

/-- `LightingData::compute_has_mask` from the source: bit `i` is set exactly
when `data[i].is_some() == has`, for the 18 section indices; the `u32`
accumulator is returned as `VarInt(out as i32)` (the value is below `2^18`,
so the cast is the identity). -/
def LightingData.compute_has_mask (ld : LightingData) (has : Bool) : Int :=
  (maskBitsAux ld.data has LIGHT_DATA_SECTIONS : Int)

/-- `LightingData::update_mask` from the source. -/
def LightingData.update_mask (ld : LightingData) : Int := ld.compute_has_mask true

/-- `LightingData::reset_mask` from the source. -/
def LightingData.reset_mask (ld : LightingData) : Int := ld.compute_has_mask false

/-- `LightingData::serialize_data` from the source: every present section,
in index order, as `VarInt(2048)` followed by its 2048 bytes. -/
def LightingData.serialize_data (ld : LightingData) : List Nat :=
  (ld.data.map (fun item =>
    match item with
    | some contents => VarInt.mc_serialize 2048 ++ contents.val
    | none => [])).flatten

/-- `LightingUpdateSpec` from the source: the two per-section maps are the
only stored fields — no mask is stored. -/
structure LightingUpdateSpec where
  skylight_data : LightingData
  blocklight_data : LightingData
  deriving DecidableEq

/-- `LightingUpdateSpec::mc_serialize` from the source: both update masks,
then both reset masks (all four derived from the stored data), then the
sky-light sections, then the block-light sections. -/
def LightingUpdateSpec.mc_serialize (v : LightingUpdateSpec) : List Nat :=
  VarInt.mc_serialize v.skylight_data.update_mask ++
    VarInt.mc_serialize v.blocklight_data.update_mask ++
    VarInt.mc_serialize v.skylight_data.reset_mask ++
    VarInt.mc_serialize v.blocklight_data.reset_mask ++
    v.skylight_data.serialize_data ++
    v.blocklight_data.serialize_data

/-- `LightingUpdateSpec::mc_deserialize` from the source: the two update
masks are read and used; the two reset-mask VarInts are read and their
values discarded (`let Deserialized { value: _, data } = ...`). -/
def LightingUpdateSpec.mc_deserialize (data : List Nat) :
    Except DeserializeErr (LightingUpdateSpec × List Nat) :=
  dbind (VarInt.mc_deserialize data) fun skylight_update_mask data =>
  dbind (VarInt.mc_deserialize data) fun blocklight_update_mask data =>
  dbind (VarInt.mc_deserialize data) fun _ data =>
  dbind (VarInt.mc_deserialize data) fun _ data =>
  dbind (LightingData.deserialize skylight_update_mask data) fun skylight_data data =>
  dbind (LightingData.deserialize blocklight_update_mask data) fun blocklight_data data =>
  .ok (⟨skylight_data, blocklight_data⟩, data)

/-- **C4**: when decoding a lighting update, at every section index whose
bit is set in the update mask the decoder reads a VarInt length prefix and
(1) fails with a decode error if the declared length is not exactly 2048,
(2) fails with an end-of-input error if the length is 2048 but fewer than
2048 bytes remain, and (3) otherwise consumes exactly 2048 bytes for the
section and continues. -/
theorem c4_lighting_section_length_check
    (update_mask ℓ : Int) (i : Nat) (is : List Nat)
    (out : List (Option LightSection)) (lb rest : List Nat)
    (hbit : (toUnsigned32 update_mask).testBit i = true)
    (henc : VarIntEncodes lb ℓ) :
    (usizeOfI32 ℓ ≠ 2048 →
      LightingData.deserializeSections update_mask (i :: is) out (lb ++ rest) =
        .error (.cannotUnderstandValue
          ("bad data length in light update " ++ toString ℓ)))
    ∧ (usizeOfI32 ℓ = 2048 → rest.length < 2048 →
      LightingData.deserializeSections update_mask (i :: is) out (lb ++ rest) =
        .error .eof)
    ∧ (usizeOfI32 ℓ = 2048 → 2048 ≤ rest.length →
      ∃ sec : LightSection, sec.val = rest.take 2048 ∧
        LightingData.deserializeSections update_mask (i :: is) out (lb ++ rest) =
          LightingData.deserializeSections update_mask is
            (out.set i (some sec)) (rest.drop 2048)) := by
  rw [LightingData.deserializeSections]
  simp only [hbit, if_true]
  rw [henc rest, dbind_ok]
  simp only [LIGHT_DATA_LENGTH]
  refine ⟨fun hne => ?_, fun heq hlt => ?_, fun heq hge => ?_⟩
  · rw [if_pos hne]
  · rw [if_neg (by omega), dif_pos hlt]
  · refine ⟨⟨rest.take 2048,
      by rw [List.length_take]; simp only [LIGHT_DATA_LENGTH]; omega⟩, rfl, ?_⟩
    rw [if_neg (by omega), dif_neg (by omega)]

/-- Witness for C4 at a concrete input: mask `1`, section index 0, declared
length 0 (`≠ 2048`), hitting the decode-error branch. -/
theorem c4_witness :
    LightingData.deserializeSections 1 [0] (List.replicate 18 none) ([0x00] ++ []) =
      .error (.cannotUnderstandValue "bad data length in light update 0") :=
  (c4_lighting_section_length_check 1 0 0 [] (List.replicate 18 none) [0x00] []
    (by decide) (fun rest => rfl)).1 (by decide)

theorem maskBitsAux_testBit (d : List (Option LightSection)) (has : Bool) :
    ∀ n j, ((maskBitsAux d has n).testBit j = true ↔
      j < n ∧ (d.getD j none).isSome = has) := by
  intro n
  induction n with
  | zero => intro j; simp [maskBitsAux]
  | succ n ih =>
    intro j
    rw [maskBitsAux, Nat.testBit_or]
    constructor
    · intro h
      rcases Bool.or_eq_true_iff.mp h with h1 | h2
      · have := (ih j).mp h1
        exact ⟨by omega, this.2⟩
      · by_cases hcond : (d.getD n none).isSome = has
        · rw [if_pos hcond, Nat.one_shiftLeft] at h2
          by_cases hj : n = j
          · subst hj; exact ⟨by omega, hcond⟩
          · rw [Nat.testBit_two_pow_of_ne hj] at h2
            simp at h2
        · rw [if_neg hcond] at h2
          simp [Nat.zero_testBit] at h2
    · rintro ⟨hj, hcond⟩
      rcases Nat.lt_or_ge j n with hlt | hge
      · exact Bool.or_eq_true_iff.mpr (.inl ((ih j).mpr ⟨hlt, hcond⟩))
      · have hjn : j = n := by omega
        subst hjn
        rw [if_pos hcond, Nat.one_shiftLeft, Nat.testBit_two_pow_self]
        simp

theorem maskBitsAux_lt (d : List (Option LightSection)) (has : Bool) :
    ∀ n, maskBitsAux d has n < 2 ^ n := by
  intro n
  induction n with
  | zero => simp [maskBitsAux]
  | succ n ih =>
    rw [maskBitsAux]
    have h1 : maskBitsAux d has n < 2 ^ (n + 1) := by
      have : (2:Nat) ^ n ≤ 2 ^ (n + 1) := Nat.pow_le_pow_right (by omega) (by omega)
      omega
    have h2 : (if (d.getD n none).isSome = has then 1 <<< n else 0) < 2 ^ (n + 1) := by
      split
      · rw [Nat.one_shiftLeft]
        exact Nat.pow_lt_pow_right (by omega) (by omega)
      · positivity
    exact Nat.or_lt_two_pow h1 h2

theorem compute_has_mask_unsigned (ld : LightingData) (has : Bool) :
    toUnsigned32 (ld.compute_has_mask has) = maskBitsAux ld.data has 18 := by
  unfold LightingData.compute_has_mask toUnsigned32 LIGHT_DATA_SECTIONS
  have h := maskBitsAux_lt ld.data has 18
  omega

theorem serialize_data_filterMap (l : List (Option LightSection)) :
    (l.map (fun item =>
      match item with
      | some contents => VarInt.mc_serialize 2048 ++ contents.val
      | none => [])).flatten =
    ((l.filterMap id).map (fun c => VarInt.mc_serialize 2048 ++ c.val)).flatten := by
  induction l with
  | nil => rfl
  | cons a tl ih => cases a <;> simp [ih]

/-- **C5**: when encoding a lighting update, all four masks are derived
from the stored per-section data (the struct stores no mask fields): each
update mask has bit `i` set exactly when section `i` is present; each reset
mask is the bitwise complement of its update mask over the 18 section
indices, with both masks vanishing above bit 17; every present section is
written as `VarInt(2048)` followed by its 2048 bytes in section order; and
the full encoding puts every sky-light section before every block-light
section. -/
theorem c5_lighting_masks_derived (ld : LightingData) :
    (∀ i, i < 18 →
      ((toUnsigned32 ld.update_mask).testBit i = true ↔
        (ld.data.getD i none).isSome = true))
    ∧ (∀ i, i < 18 →
      ((toUnsigned32 ld.reset_mask).testBit i =
        ! (toUnsigned32 ld.update_mask).testBit i))
    ∧ toUnsigned32 ld.update_mask < 2 ^ 18
    ∧ toUnsigned32 ld.reset_mask < 2 ^ 18
    ∧ ld.serialize_data =
        ((ld.data.filterMap id).map (fun c => VarInt.mc_serialize 2048 ++ c.val)).flatten
    ∧ (∀ blk : LightingData,
        LightingUpdateSpec.mc_serialize ⟨ld, blk⟩ =
          VarInt.mc_serialize ld.update_mask ++
            (VarInt.mc_serialize blk.update_mask ++
              (VarInt.mc_serialize ld.reset_mask ++
                (VarInt.mc_serialize blk.reset_mask ++
                  (ld.serialize_data ++ blk.serialize_data))))) := by
  refine ⟨?_, ?_, ?_, ?_, serialize_data_filterMap ld.data, ?_⟩
  · intro i hi
    rw [LightingData.update_mask, compute_has_mask_unsigned,
      maskBitsAux_testBit ld.data true 18 i]
    constructor
    · exact fun h => h.2
    · exact fun h => ⟨hi, h⟩
  · intro i hi
    rw [LightingData.update_mask, LightingData.reset_mask,
      compute_has_mask_unsigned, compute_has_mask_unsigned]
    by_cases hcond : (ld.data.getD i none).isSome = true
    · have h1 : (maskBitsAux ld.data true 18).testBit i = true :=
        (maskBitsAux_testBit ld.data true 18 i).mpr ⟨hi, hcond⟩
      have h2 : (maskBitsAux ld.data false 18).testBit i = false := by
        rw [← Bool.not_eq_true]
        intro hq
        have := ((maskBitsAux_testBit ld.data false 18 i).mp hq).2
        rw [hcond] at this
        simp at this
      rw [h1, h2]
      rfl
    · have hcond' : (ld.data.getD i none).isSome = false := by
        revert hcond
        cases (ld.data.getD i none).isSome <;> simp
      have h1 : (maskBitsAux ld.data true 18).testBit i = false := by
        rw [← Bool.not_eq_true]
        intro hq
        have := ((maskBitsAux_testBit ld.data true 18 i).mp hq).2
        rw [hcond'] at this
        simp at this
      have h2 : (maskBitsAux ld.data false 18).testBit i = true :=
        (maskBitsAux_testBit ld.data false 18 i).mpr ⟨hi, hcond'⟩
      rw [h1, h2]
      rfl
  · rw [LightingData.update_mask, compute_has_mask_unsigned]
    exact maskBitsAux_lt ld.data true 18
  · rw [LightingData.reset_mask, compute_has_mask_unsigned]
    exact maskBitsAux_lt ld.data false 18
  · intro blk
    unfold LightingUpdateSpec.mc_serialize
    simp only [List.append_assoc]

/-- The spec's scenario 5: a lighting buffer with only section index 3
present (2048 zero bytes). -/
def exampleLighting : LightingData :=
  ⟨(List.replicate 18 (none : Option LightSection)).set 3
    (some ⟨List.replicate 2048 0, by rw [List.length_replicate]; rfl⟩)⟩

/-- Witness for C5: on the concrete one-section buffer, bit 3 of the update
mask is set (it is present) and bit 4 is not in the reset mask's
complemented position, via the theorem at concrete indices. -/
theorem c5_witness :
    (toUnsigned32 exampleLighting.update_mask).testBit 3 = true
    ∧ (toUnsigned32 exampleLighting.reset_mask).testBit 3 =
        ! (toUnsigned32 exampleLighting.update_mask).testBit 3
    ∧ toUnsigned32 exampleLighting.update_mask < 2 ^ 18 :=
  ⟨((c5_lighting_masks_derived exampleLighting).1 3 (by norm_num)).mpr (by decide),
   (c5_lighting_masks_derived exampleLighting).2.1 3 (by norm_num),
   (c5_lighting_masks_derived exampleLighting).2.2.1⟩

/-- **C10** (implicit): `LightingUpdateSpec::mc_deserialize` ignores the
values of the two transmitted reset-mask VarInts: two inputs that agree on
the update-mask fields and on everything after the reset-mask fields, but
carry arbitrary (well-formed) reset masks, decode to literally the same
result — same success value and remainder, or the same error.  Reset masks
inconsistent with the update masks are never rejected. -/
theorem c10_reset_masks_ignored
    (u1b u2b r1 r2 r1' r2' tail : List Nat) (u1 u2 w1 w2 w1' w2' : Int)
    (h1 : VarIntEncodes u1b u1) (h2 : VarIntEncodes u2b u2)
    (h3 : VarIntEncodes r1 w1) (h4 : VarIntEncodes r2 w2)
    (h5 : VarIntEncodes r1' w1') (h6 : VarIntEncodes r2' w2') :
    LightingUpdateSpec.mc_deserialize (u1b ++ u2b ++ r1 ++ r2 ++ tail) =
      LightingUpdateSpec.mc_deserialize (u1b ++ u2b ++ r1' ++ r2' ++ tail) := by
  unfold LightingUpdateSpec.mc_deserialize
  simp only [List.append_assoc]
  rw [h1 (u2b ++ (r1 ++ (r2 ++ tail))), dbind_ok,
    h2 (r1 ++ (r2 ++ tail)), dbind_ok,
    h3 (r2 ++ tail), dbind_ok, h4 tail, dbind_ok,
    h1 (u2b ++ (r1' ++ (r2' ++ tail))), dbind_ok,
    h2 (r1' ++ (r2' ++ tail)), dbind_ok,
    h5 (r2' ++ tail), dbind_ok, h6 tail, dbind_ok]

/-- Witness for C10: update masks `0`, reset masks `1`/`2` in one input and
`127`/`0` in the other, same (empty) tail — the decoder's results coincide. -/
theorem c10_witness :
    LightingUpdateSpec.mc_deserialize ([0x00] ++ [0x00] ++ [0x01] ++ [0x02] ++ []) =
      LightingUpdateSpec.mc_deserialize ([0x00] ++ [0x00] ++ [0x7F] ++ [0x00] ++ []) :=
  c10_reset_masks_ignored [0x00] [0x00] [0x01] [0x02] [0x7F] [0x00] []
    0 0 1 2 127 0 (fun _ => rfl) (fun _ => rfl) (fun _ => rfl) (fun _ => rfl)
    (fun _ => rfl) (fun _ => rfl)

-- ### EntityMetadata (from `v1_15_2.rs`)

/-- `EntityMetadataField` from the source, generic in the field-data type. -/
structure EntityMetadataFieldOf (FD : Type) where
  index : Nat
  data : FD

/-- The `loop` of `EntityMetadata::mc_deserialize`, parametrized by the
`EntityMetadataFieldData::mc_deserialize` step `fieldDe` (whose tagged
payload codecs — Chat, Slot, NBT, particle data — live outside the sources
under review): read an index byte, stop at `0xFF`, otherwise read one field
value and continue.  Structural fuel bounds the iteration count; every Rust
deserializer returns a suffix of its input, so each iteration consumes at
least the index byte and the fuel (input length + 1 at the top call) is
never exhausted for such decoders — the fuel-out arm is unreachable then. -/
def entityMetadataLoop (fieldDe : List Nat → DeserResult FD) :
    Nat → List Nat → DeserResult (List (EntityMetadataFieldOf FD))
  | 0, _ => .error (.panicked "loop fuel exhausted")
  | fuel + 1, data =>
    dbind (u8.mc_deserialize data) fun index rest =>
      if index = 0xFF then .ok ([], rest)
      else
        dbind (fieldDe rest) fun fd rest2 =>
          dbind (entityMetadataLoop fieldDe fuel rest2) fun fields rest3 =>
            .ok (⟨index, fd⟩ :: fields, rest3)

/-- `EntityMetadata::mc_deserialize` from the source. -/
def EntityMetadata.deserializeWith (fieldDe : List Nat → DeserResult FD)
    (data : List Nat) : DeserResult (List (EntityMetadataFieldOf FD)) :=
  entityMetadataLoop fieldDe (data.length + 1) data

/-- `EntityMetadata::mc_serialize` from the source: each field as its index
byte followed by its data, then the terminating `0xFF`. -/
def EntityMetadata.serializeWith (fieldSer : FD → List Nat)
    (fields : List (EntityMetadataFieldOf FD)) : List Nat :=
  (fields.map (fun f => u8.mc_serialize f.index ++ fieldSer f.data)).flatten ++ [0xFF]

theorem entityMetadataLoop_entries (fieldDe : List Nat → DeserResult FD) :
    ∀ (entries : List (Nat × List Nat × FD)) (fuel : Nat) (rest : List Nat),
      (∀ e ∈ entries, e.1 ≠ 0xFF ∧ e.1 < 0x100 ∧
        ∀ tail, fieldDe (e.2.1 ++ tail) = .ok (e.2.2, tail)) →
      ((entries.map (fun e => e.1 :: e.2.1)).flatten).length + 1 ≤ fuel →
      entityMetadataLoop fieldDe fuel
          ((entries.map (fun e => e.1 :: e.2.1)).flatten ++ 0xFF :: rest) =
        .ok (entries.map (fun e => ⟨e.1, e.2.2⟩), rest) := by
  intro entries
  induction entries with
  | nil =>
    intro fuel rest _ hfuel
    simp only [List.map_nil, List.flatten_nil, List.length_nil, List.nil_append] at hfuel ⊢
    obtain ⟨f, rfl⟩ : ∃ f, fuel = f + 1 := ⟨fuel - 1, by omega⟩
    rw [entityMetadataLoop,
      show u8.mc_deserialize (0xFF :: rest) = .ok (0xFF, rest) from rfl, dbind_ok,
      if_pos rfl]
  | cons e etl ih =>
    intro fuel rest hent hfuel
    obtain ⟨idx, payload, v⟩ := e
    have he := hent _ (List.mem_cons_self _ _)
    obtain ⟨hne, _, hde⟩ := he
    simp only [List.map_cons, List.flatten_cons, List.length_append,
      List.length_cons, List.cons_append, List.append_assoc] at hfuel ⊢
    obtain ⟨f, rfl⟩ : ∃ f, fuel = f + 1 := ⟨fuel - 1, by omega⟩
    rw [entityMetadataLoop,
      show ∀ t, u8.mc_deserialize (idx :: t) = .ok (idx, t) from fun t => rfl, dbind_ok,
      if_neg hne, hde, dbind_ok,
      ih f rest (fun q hq => hent q (List.mem_cons_of_mem _ hq)) (by omega), dbind_ok]

/-- **C6**: `EntityMetadata::mc_deserialize` stops exactly at the first
`0xFF` index byte and never consumes bytes beyond it: for every input whose
entry sequence (index byte `≠ 0xFF` followed by one complete field-value
encoding, for any field-value decoder) is terminated by a `0xFF` index
byte, decode succeeds with exactly those entries and the returned remainder
is exactly the bytes following that `0xFF`. -/
theorem c6_entity_metadata_sentinel (FD : Type) (fieldDe : List Nat → DeserResult FD)
    (entries : List (Nat × List Nat × FD)) (rest : List Nat)
    (hent : ∀ e ∈ entries, e.1 ≠ 0xFF ∧ e.1 < 0x100 ∧
      ∀ tail, fieldDe (e.2.1 ++ tail) = .ok (e.2.2, tail)) :
    EntityMetadata.deserializeWith fieldDe
        ((entries.map (fun e => e.1 :: e.2.1)).flatten ++ 0xFF :: rest) =
      .ok (entries.map (fun e => ⟨e.1, e.2.2⟩), rest) := by
  unfold EntityMetadata.deserializeWith
  exact entityMetadataLoop_entries fieldDe entries _ rest hent
    (by simp only [List.length_append, List.length_cons]; omega)

/-- Witness for C6: one boolean-valued entry `{index 0, value true}`
followed by the sentinel and a non-empty suffix; the decoder returns the
entry and exactly the suffix after `0xFF`. -/
theorem c6_witness :
    EntityMetadata.deserializeWith bool.mc_deserialize
        (([(0, [1], true)].map (fun e : Nat × List Nat × Bool => e.1 :: e.2.1)).flatten
          ++ 0xFF :: [42]) =
      .ok ([(0, [1], true)].map
        (fun e : Nat × List Nat × Bool => ⟨e.1, e.2.2⟩), [42]) :=
  c6_entity_metadata_sentinel Bool bool.mc_deserialize [(0, [1], true)] [42]
    (by
      intro e he
      simp only [List.mem_singleton] at he
      subst he
      exact ⟨by decide, by decide, fun tail => rfl⟩)

-- ### RecipeCraftingShapedSpec (from `v1_15_2.rs`)

/-- `bs` is a complete encoding of string `s`: the decoder consumes exactly
`bs` and yields `s`, whatever follows. -/
def McStringEncodes (bs : List Nat) (s : List Nat) : Prop :=
  ∀ rest, McString.mc_deserialize (bs ++ rest) = .ok (s, rest)

/-- `RecipeIngredient` from the source
(`__protocol_body_def_helper!(RecipeIngredient { items: VarIntCountedArray<Option<Slot>> })`),
parametrized by the `Slot` codec (its NBT payload lives outside the sources
under review). -/
structure RecipeIngredientOf (Slot : Type) where
  items : List (Option Slot)

/-- `RecipeIngredient::mc_deserialize`, from the combinators. -/
def RecipeIngredientOf.deserializeWith (slotDe : List Nat → DeserResult Slot)
    (data : List Nat) : DeserResult (RecipeIngredientOf Slot) :=
  dbind (VarIntCountedArray.mc_deserialize (optionDeserialize slotDe) data)
    fun items data => .ok (⟨items⟩, data)

/-- `RecipeCraftingShapedSpec` from the source. -/
structure RecipeCraftingShapedSpecOf (Slot : Type) where
  width : Int
  height : Int
  group : List Nat
  ingredients : List (RecipeIngredientOf Slot)
  result : Option Slot

/-- `RecipeCraftingShapedSpec::mc_deserialize` from the source: width and
height VarInts, the group string, then exactly
`width.0 as usize * height.0 as usize` ingredients with no count prefix of
their own, then the optional result slot.  The `usize` product is the
wrapping (release-mode) multiplication modulo `2^64`. -/
def RecipeCraftingShapedSpec.deserializeWith (slotDe : List Nat → DeserResult Slot)
    (data : List Nat) : DeserResult (RecipeCraftingShapedSpecOf Slot) :=
  dbind (VarInt.mc_deserialize data) fun width data =>
  dbind (VarInt.mc_deserialize data) fun height data =>
  dbind (McString.mc_deserialize data) fun group data =>
  dbind (deserializeN (RecipeIngredientOf.deserializeWith slotDe)
      (usizeOfI32 width * usizeOfI32 height % 2 ^ 64) data) fun ingredients data =>
  dbind (optionDeserialize slotDe data) fun result data =>
  .ok (⟨width, height, group, ingredients, result⟩, data)

theorem deserializeN_first_error (de : List Nat → DeserResult α) :
    ∀ (entries : List (α × List Nat)) (n : Nat) (badtail : List Nat) (e : DeserializeErr),
      (∀ p ∈ entries, ∀ tail, de (p.2 ++ tail) = .ok (p.1, tail)) →
      de badtail = .error e →
      deserializeN de (entries.length + n + 1)
        ((entries.map Prod.snd).flatten ++ badtail) = .error e := by
  intro entries
  induction entries with
  | nil =>
    intro n badtail e _ hbad
    simp only [List.length_nil, List.map_nil, List.flatten_nil, List.nil_append,
      Nat.zero_add]
    rw [deserializeN, hbad, dbind_error]
  | cons p ptl ih =>
    intro n badtail e hgood hbad
    simp only [List.length_cons, List.map_cons, List.flatten_cons, List.append_assoc]
    rw [show ptl.length + 1 + n + 1 = (ptl.length + n + 1) + 1 from by omega,
      deserializeN, hgood p (List.mem_cons_self p ptl) _, dbind_ok,
      ih n badtail e (fun q hq => hgood q (List.mem_cons_of_mem p hq)) hbad, dbind_error]

/-- **C8**: `RecipeCraftingShapedSpec::mc_deserialize` reads width and
height (VarInts) and the group string first; then (1) on any success the
ingredients vector has exactly `width * height` (usize product) elements;
(2) the ingredient elements are decoded immediately after the group with no
separate count prefix — after complete width/height/group fields the
decoder continues with exactly the `width * height`-element loop and then
the result slot; and (3) the first per-element error is propagated as the
overall result. -/
theorem c8_shaped_recipe_count_from_dimensions :
    (∀ (Slot : Type) (slotDe : List Nat → DeserResult Slot) data spec rest,
      RecipeCraftingShapedSpec.deserializeWith slotDe data = .ok (spec, rest) →
      spec.ingredients.length = usizeOfI32 spec.width * usizeOfI32 spec.height % 2 ^ 64)
    ∧ (∀ (Slot : Type) (slotDe : List Nat → DeserResult Slot)
        (wb hb gb : List Nat) (w h : Int) (g : List Nat) (rest : List Nat),
      VarIntEncodes wb w → VarIntEncodes hb h → McStringEncodes gb g →
      RecipeCraftingShapedSpec.deserializeWith slotDe (wb ++ hb ++ gb ++ rest) =
        dbind (deserializeN (RecipeIngredientOf.deserializeWith slotDe)
            (usizeOfI32 w * usizeOfI32 h % 2 ^ 64) rest) (fun ingredients data =>
          dbind (optionDeserialize slotDe data) fun result data =>
          .ok (⟨w, h, g, ingredients, result⟩, data)))
    ∧ (∀ (Slot : Type) (slotDe : List Nat → DeserResult Slot)
        (wb hb gb : List Nat) (w h : Int) (g : List Nat)
        (entries : List (RecipeIngredientOf Slot × List Nat))
        (n : Nat) (badtail : List Nat) (e : DeserializeErr),
      VarIntEncodes wb w → VarIntEncodes hb h → McStringEncodes gb g →
      (∀ p ∈ entries, ∀ tail,
        RecipeIngredientOf.deserializeWith slotDe (p.2 ++ tail) = .ok (p.1, tail)) →
      RecipeIngredientOf.deserializeWith slotDe badtail = .error e →
      usizeOfI32 w * usizeOfI32 h % 2 ^ 64 = entries.length + n + 1 →
      RecipeCraftingShapedSpec.deserializeWith slotDe
          (wb ++ hb ++ gb ++ ((entries.map Prod.snd).flatten ++ badtail)) =
        .error e) := by
  refine ⟨?_, ?_, ?_⟩
  · intro Slot slotDe data spec rest h
    unfold RecipeCraftingShapedSpec.deserializeWith at h
    obtain ⟨w, d1, _, h⟩ := dbind_eq_ok _ _ _ _ h
    obtain ⟨hgt, d2, _, h⟩ := dbind_eq_ok _ _ _ _ h
    obtain ⟨g, d3, _, h⟩ := dbind_eq_ok _ _ _ _ h
    obtain ⟨ings, d4, hN, h⟩ := dbind_eq_ok _ _ _ _ h
    obtain ⟨res, d5, _, h⟩ := dbind_eq_ok _ _ _ _ h
    simp only [Except.ok.injEq, Prod.mk.injEq] at h
    rw [← h.1]
    exact deserializeN_length _ _ _ _ _ hN
  · intro Slot slotDe wb hb gb w h g rest hw hh hg
    unfold RecipeCraftingShapedSpec.deserializeWith
    simp only [List.append_assoc]
    rw [hw (hb ++ (gb ++ rest)), dbind_ok, hh (gb ++ rest), dbind_ok, hg rest, dbind_ok]
  · intro Slot slotDe wb hb gb w h g entries n badtail e hw hh hg hgood hbad hcount
    unfold RecipeCraftingShapedSpec.deserializeWith
    simp only [List.append_assoc]
    rw [hw _, dbind_ok, hh _, dbind_ok, hg _, dbind_ok, hcount,
      deserializeN_first_error _ entries n badtail e hgood hbad, dbind_error]

/-- Witness for C8: width 0, height 0, empty group, `none` result — decode
succeeds with an empty ingredient vector of length `0 * 0`, via the
structural conjunct of the theorem at complete concrete field encodings. -/
theorem c8_witness :
    RecipeCraftingShapedSpec.deserializeWith
        (fun _ => (.error .eof : DeserResult Unit))
        ([0x00] ++ [0x00] ++ [0x00] ++ [0x00]) =
      .ok (⟨0, 0, [], [], none⟩, []) := by
  rw [c8_shaped_recipe_count_from_dimensions.2.1 Unit
    (fun _ => (.error .eof : DeserResult Unit)) [0x00] [0x00] [0x00] 0 0 [] [0x00]
    (fun _ => rfl) (fun _ => rfl) (fun _ => rfl)]
  rfl

-- ### ChunkData (from `v1_15_2.rs`) and counted-array count fidelity

theorem varint_from_usize_small (n : Nat) (h : n < 2 ^ 31) :
    varint_from_usize n = (n : Int) := by
  unfold varint_from_usize fromUnsigned32
  have hm : n % 2 ^ 32 = n := Nat.mod_eq_of_lt (by omega)
  rw [hm]
  simp only [if_pos (by omega : n < 2 ^ 31)]

theorem usizeOfI32_ofNat (n : Nat) (h : n < 2 ^ 63) :
    usizeOfI32 (n : Int) = n := by
  unfold usizeOfI32
  omega

theorem u8_roundtrip (v : Nat) (h : v < 256) (rest : List Nat) :
    u8.mc_deserialize (u8.mc_serialize v ++ rest) = .ok (v, rest) := by
  unfold u8.mc_serialize u8.mc_deserialize
  rw [List.cons_append, List.nil_append]
  rw [Nat.mod_eq_of_lt h]

theorem deserializeN_map_serialize (ser : α → List Nat) (de : List Nat → DeserResult α)
    (xs : List α) (hrt : ∀ v ∈ xs, ∀ rest, de (ser v ++ rest) = .ok (v, rest))
    (rest : List Nat) :
    deserializeN de xs.length ((xs.map ser).flatten ++ rest) = .ok (xs, rest) := by
  have h := deserializeN_chunks de (xs.map fun x => (x, ser x)) rest (by
    intro p hp tail
    simp only [List.mem_map] at hp
    obtain ⟨x, hx, rfl⟩ := hp
    exact hrt x hx tail)
  have hfst : (xs.map (fun x => (x, ser x))).map Prod.fst = xs := by
    simp [Function.comp_def]
  have hsnd : (xs.map (fun x => (x, ser x))).map Prod.snd = xs.map ser := by
    simp [Function.comp_def]
  have hlen2 : (xs.map (fun x => (x, ser x))).length = xs.length := by simp
  rw [hfst, hsnd, hlen2] at h
  exact h

theorem counted_array_roundtrip_mem (ser : α → List Nat) (de : List Nat → DeserResult α)
    (xs : List α) (hrt : ∀ v ∈ xs, ∀ rest, de (ser v ++ rest) = .ok (v, rest))
    (hlen : xs.length < 2 ^ 31) (rest : List Nat) :
    VarIntCountedArray.mc_deserialize de (VarIntCountedArray.mc_serialize ser xs ++ rest) =
      .ok (xs, rest) := by
  unfold VarIntCountedArray.mc_serialize VarIntCountedArray.mc_deserialize
  rw [List.append_assoc, varint_from_usize_small _ hlen,
    varint_roundtrip (xs.length : Int) (by omega) (by omega) _, dbind_ok,
    show varint_to_usize ((xs.length : Nat) : Int) = xs.length from
      usizeOfI32_ofNat _ (by omega)]
  exact deserializeN_map_serialize ser de xs hrt rest

/-- `ChunkData` from the source, parametrized by the NBT tag type
(`NamedNbtTag` lives outside the sources under review).  `biomes` is legal
when it holds exactly 1024 values (`[i32; 1024]`). -/
structure ChunkDataOf (Nbt : Type) where
  chunk_x : Int
  chunk_z : Int
  primary_bit_mask : Int
  heightmaps : Nbt
  biomes : Option (List Int)
  data : List Nat
  block_entities : List Nbt

/-- `ChunkData::mc_serialize` from the source: coordinates, the
`full_chunk` flag derived from `biomes.is_some()`, the bit mask, the
heightmap tag, the biome ints when full, the counted byte buffer, then
`VarInt(self.block_entities.len() as i32)` followed by each entity tag. -/
def ChunkData.serializeWith (nbtSer : Nbt → List Nat) (cd : ChunkDataOf Nbt) : List Nat :=
  i32.mc_serialize cd.chunk_x ++
    i32.mc_serialize cd.chunk_z ++
    bool.mc_serialize cd.biomes.isSome ++
    VarInt.mc_serialize cd.primary_bit_mask ++
    nbtSer cd.heightmaps ++
    (match cd.biomes with
     | some biomes => (biomes.map i32.mc_serialize).flatten
     | none => []) ++
    VarIntCountedArray.mc_serialize u8.mc_serialize cd.data ++
    VarInt.mc_serialize (varint_from_usize cd.block_entities.length) ++
    (cd.block_entities.map nbtSer).flatten

/-- `ChunkData::mc_deserialize` from the source: mirror field order;
exactly 1024 biome ints when the full-chunk flag is set; the counted byte
buffer; then a VarInt count of block entities and exactly that many tags. -/
def ChunkData.deserializeWith (nbtDe : List Nat → DeserResult Nbt) (data : List Nat) :
    DeserResult (ChunkDataOf Nbt) :=
  dbind (i32.mc_deserialize data) fun chunk_x data =>
  dbind (i32.mc_deserialize data) fun chunk_z data =>
  dbind (bool.mc_deserialize data) fun is_full_chunk data =>
  dbind (VarInt.mc_deserialize data) fun primary_bit_mask data =>
  dbind (nbtDe data) fun heightmaps data =>
  dbind (if is_full_chunk then
      dbind (deserializeN i32.mc_deserialize 1024 data) fun biomes data =>
        .ok (some biomes, data)
    else .ok (none, data)) fun biomes data =>
  dbind (VarIntCountedArray.mc_deserialize u8.mc_deserialize data) fun chunk_data data =>
  dbind (VarInt.mc_deserialize data) fun n_block_entities_raw data =>
  dbind (deserializeN nbtDe (usizeOfI32 n_block_entities_raw) data)
    fun block_entities data =>
  .ok (⟨chunk_x, chunk_z, primary_bit_mask, heightmaps, biomes, chunk_data,
    block_entities⟩, data)

/-- A legal `ChunkData`: every field within its Rust type's range. -/
def ChunkDataOf.legal (cd : ChunkDataOf Nbt) : Prop :=
  -(2 ^ 31) ≤ cd.chunk_x ∧ cd.chunk_x < 2 ^ 31 ∧
    -(2 ^ 31) ≤ cd.chunk_z ∧ cd.chunk_z < 2 ^ 31 ∧
    -(2 ^ 31) ≤ cd.primary_bit_mask ∧ cd.primary_bit_mask < 2 ^ 31 ∧
    (∀ bs, cd.biomes = some bs →
      bs.length = 1024 ∧ ∀ v ∈ bs, -(2 ^ 31) ≤ v ∧ v < 2 ^ 31) ∧
    (∀ b ∈ cd.data, b < 256) ∧ cd.data.length < 2 ^ 31 ∧
    cd.block_entities.length < 2 ^ 31

theorem chunk_data_roundtrip (nbtSer : Nbt → List Nat)
    (nbtDe : List Nat → DeserResult Nbt)
    (hnbt : ∀ t rest, nbtDe (nbtSer t ++ rest) = .ok (t, rest))
    (cd : ChunkDataOf Nbt) (hleg : cd.legal) (rest : List Nat) :
    ChunkData.deserializeWith nbtDe (ChunkData.serializeWith nbtSer cd ++ rest) =
      .ok (cd, rest) := by
  obtain ⟨cx, cz, mask, hmaps, biomes, d, bes⟩ := cd
  simp only [ChunkDataOf.legal] at hleg
  obtain ⟨hx1, hx2, hz1, hz2, hm1, hm2, hbio, hd, hdlen, hblen⟩ := hleg
  cases biomes with
  | none =>
    unfold ChunkData.serializeWith ChunkData.deserializeWith
    simp only [List.append_assoc, Option.isSome_none, List.nil_append]
    rw [i32_roundtrip cx hx1 hx2 _, dbind_ok, i32_roundtrip cz hz1 hz2 _, dbind_ok,
      bool_roundtrip false _, dbind_ok, varint_roundtrip mask hm1 hm2 _, dbind_ok,
      hnbt hmaps _, dbind_ok, if_neg (by decide), dbind_ok,
      counted_array_roundtrip_mem u8.mc_serialize u8.mc_deserialize d
        (fun v hv r => u8_roundtrip v (hd v hv) r) hdlen _, dbind_ok,
      varint_from_usize_small _ hblen,
      varint_roundtrip (bes.length : Int) (by omega) (by omega) _, dbind_ok,
      usizeOfI32_ofNat _ (by omega),
      deserializeN_map_serialize nbtSer nbtDe bes (fun t _ r => hnbt t r) rest, dbind_ok]
  | some bs =>
    obtain ⟨hbslen, hbsv⟩ := hbio bs rfl
    unfold ChunkData.serializeWith ChunkData.deserializeWith
    simp only [List.append_assoc, Option.isSome_some]
    rw [i32_roundtrip cx hx1 hx2 _, dbind_ok, i32_roundtrip cz hz1 hz2 _, dbind_ok,
      bool_roundtrip true _, dbind_ok, varint_roundtrip mask hm1 hm2 _, dbind_ok,
      hnbt hmaps _, dbind_ok, if_pos rfl,
      show (1024 : Nat) = bs.length from hbslen.symm,
      deserializeN_map_serialize i32.mc_serialize i32.mc_deserialize bs
        (fun v hv r => i32_roundtrip v (hbsv v hv).1 (hbsv v hv).2 r) _, dbind_ok,
      dbind_ok,
      counted_array_roundtrip_mem u8.mc_serialize u8.mc_deserialize d
        (fun v hv r => u8_roundtrip v (hd v hv) r) hdlen _, dbind_ok,
      varint_from_usize_small _ hblen,
      varint_roundtrip (bes.length : Int) (by omega) (by omega) _, dbind_ok,
      usizeOfI32_ofNat _ (by omega),
      deserializeN_map_serialize nbtSer nbtDe bes (fun t _ r => hnbt t r) rest, dbind_ok]

/-- **C9**: counted-sequence count fidelity.  (1) After any successful
`VarIntCountedArray` decode, the element count equals the decoded count
field.  (2) Encoding always emits a count computed from the element list's
actual length: the VarInt at the head of the encoding decodes to exactly
`xs.length`.  (3) `ChunkData::mc_serialize` writes
`VarInt(block_entities.len())` immediately before the serialized
block-entity tags.  (4) `ChunkData::mc_deserialize` reads back exactly the
serialized chunk — in particular exactly `block_entities.len()`
block-entity tags — consuming the whole encoding. -/
theorem c9_counted_sequence_count_fidelity :
    (∀ (α : Type) (de : List Nat → DeserResult α) (data : List Nat) xs rest,
      VarIntCountedArray.mc_deserialize de data = .ok (xs, rest) →
      ∃ c mid, VarInt.mc_deserialize data = .ok (c, mid) ∧
        xs.length = varint_to_usize c)
    ∧ (∀ (α : Type) (ser : α → List Nat) (xs : List α) rest, xs.length < 2 ^ 31 →
      VarInt.mc_deserialize (VarIntCountedArray.mc_serialize ser xs ++ rest) =
        .ok ((xs.length : Int), (xs.map ser).flatten ++ rest))
    ∧ (∀ (Nbt : Type) (nbtSer : Nbt → List Nat) (cd : ChunkDataOf Nbt),
      ∃ prefixBytes, ChunkData.serializeWith nbtSer cd =
        prefixBytes ++
          VarInt.mc_serialize (varint_from_usize cd.block_entities.length) ++
          (cd.block_entities.map nbtSer).flatten)
    ∧ (∀ (Nbt : Type) (nbtSer : Nbt → List Nat) (nbtDe : List Nat → DeserResult Nbt),
      (∀ t rest, nbtDe (nbtSer t ++ rest) = .ok (t, rest)) →
      ∀ (cd : ChunkDataOf Nbt), cd.legal → ∀ rest,
        ChunkData.deserializeWith nbtDe (ChunkData.serializeWith nbtSer cd ++ rest) =
          .ok (cd, rest)) := by
  refine ⟨?_, ?_, ?_, ?_⟩
  · intro α de data xs rest h
    unfold VarIntCountedArray.mc_deserialize at h
    obtain ⟨c, mid, hc, hN⟩ := dbind_eq_ok _ _ _ _ h
    exact ⟨c, mid, hc, deserializeN_length _ _ _ _ _ hN⟩
  · intro α ser xs rest hlen
    unfold VarIntCountedArray.mc_serialize
    rw [List.append_assoc, varint_from_usize_small _ hlen]
    exact varint_roundtrip (xs.length : Int) (by omega) (by omega) _
  · intro Nbt nbtSer cd
    refine ⟨i32.mc_serialize cd.chunk_x ++ i32.mc_serialize cd.chunk_z ++
      bool.mc_serialize cd.biomes.isSome ++ VarInt.mc_serialize cd.primary_bit_mask ++
      nbtSer cd.heightmaps ++
      (match cd.biomes with
       | some biomes => (biomes.map i32.mc_serialize).flatten
       | none => []) ++
      VarIntCountedArray.mc_serialize u8.mc_serialize cd.data, ?_⟩
    unfold ChunkData.serializeWith
    simp only [List.append_assoc]
  · intro Nbt nbtSer nbtDe hnbt cd hleg rest
    exact chunk_data_roundtrip nbtSer nbtDe hnbt cd hleg rest

/-- Witness for C9 at concrete inputs: a two-element counted boolean array
decodes with element count equal to its count field; encoding a singleton
emits count 1; and a concrete chunk (no biomes, one data byte, two
block-entity tags under a one-byte tag codec) round-trips. -/
theorem c9_witness :
    (∃ c mid, VarInt.mc_deserialize [2, 1, 0] = .ok (c, mid) ∧
      ([true, false] : List Bool).length = varint_to_usize c)
    ∧ VarInt.mc_deserialize
        (VarIntCountedArray.mc_serialize bool.mc_serialize [true] ++ []) =
      .ok ((1 : Int), ([[1]] : List (List Nat)).flatten ++ [])
    ∧ ChunkData.deserializeWith
        (fun data => match data with
          | 0x0A :: r => .ok ((), r)
          | _ => .error .eof)
        (ChunkData.serializeWith (fun _ => [0x0A])
          ⟨1, 2, 3, (), none, [7], [(), ()]⟩ ++ [9]) =
      .ok (⟨1, 2, 3, (), none, [7], [(), ()]⟩, [9]) :=
  ⟨c9_counted_sequence_count_fidelity.1 Bool bool.mc_deserialize [2, 1, 0]
      [true, false] [] rfl,
   c9_counted_sequence_count_fidelity.2.1 Bool bool.mc_serialize [true] [] (by norm_num),
   c9_counted_sequence_count_fidelity.2.2.2 Unit (fun _ => [0x0A])
     (fun data => match data with
       | 0x0A :: r => .ok ((), r)
       | _ => .error .eof)
     (fun t rest => rfl)
     ⟨1, 2, 3, (), none, [7], [(), ()]⟩
     (by
       refine ⟨by norm_num, by norm_num, by norm_num, by norm_num, by norm_num,
         by norm_num, ?_, ?_, by norm_num, by norm_num⟩
       · intro bs h
         cases h
       · intro b hb
         simp only [List.mem_singleton] at hb
         omega)
     [9]⟩
